import Mathlib

/-!
Verification development for the JD–resume match agent.

The TypeScript sources are shallowly embedded as executable Lean
definitions.  Strings are handled through their character lists
(`String.data`), since the embedded code manipulates text
character-wise; JavaScript string builtins (`includes`, `trim`,
`toLowerCase`, `indexOf`, …) are modelled by structural functions on
`List Char` restricted to the ASCII texts the program works with.
JSON values are modelled by the inductive `JVal`, JavaScript numbers
(which may be NaN after coercion) by `JNum`.
-/

set_option maxRecDepth 40000

namespace JDMatch

/-! ## Generic string primitives (JS builtins) -/

/-- Whitespace as used by the embedded code (ASCII subset of the
JavaScript `\s` class / `trim` set). -/
def wsChar (c : Char) : Bool := c = ' ' || c = '\t' || c = '\n' || c = '\r'

/-- Does `pat` occur at the very start of `s`?  (List-level prefix test.) -/
def chPrefix : List Char → List Char → Bool
  | p :: ps, q :: qs => p == q && chPrefix ps qs
  | [], _ => true
  | _ :: _, [] => false

/-- First index at which `pat` occurs in `s` (JS `String.prototype.indexOf`). -/
def chFind (pat : List Char) : List Char → Option Nat
  | [] => if chPrefix pat [] then some 0 else none
  | c :: cs =>
    if chPrefix pat (c :: cs) then some 0
    else (chFind pat cs).map (· + 1)

/-- JS `hay.includes(pat)`. -/
def chContains (hay pat : List Char) : Bool := (chFind pat hay).isSome

/-- JS `hay.includes(pat)` on `String`. -/
def jsIncludes (hay pat : String) : Bool := chContains hay.data pat.data

/-- JS `s.toLowerCase()` (ASCII case mapping). -/
def jsToLower (s : String) : String := (s.data.map Char.toLower).asString

/-- JS `s.trim()` on character lists. -/
def chTrim (cs : List Char) : List Char :=
  ((cs.dropWhile wsChar).reverse.dropWhile wsChar).reverse

/-- JS `s.trim()`. -/
def jsTrim (s : String) : String := (chTrim s.data).asString

/-- JS `Array.prototype.join(sep)` / template-literal concatenation. -/
def joinSep (sep : String) : List String → String
  | [] => ""
  | [x] => x
  | x :: xs => x ++ sep ++ joinSep sep xs

/-! ## JavaScript number and JSON value model -/

/-- A JavaScript number: either NaN or a finite value (modelled as a
rational, which covers every numeric literal the program produces). -/
inductive JNum where
  | nan : JNum
  | val (q : Rat) : JNum
deriving DecidableEq, Repr

/-- A JSON value as produced by `JSON.parse`. -/
inductive JVal where
  | num (q : Rat) : JVal
  | str (s : String) : JVal
  | bool (b : Bool) : JVal
  | null : JVal
  | arr (elems : List JVal) : JVal
  | obj (fields : List (String × JVal)) : JVal

/-- JS truthiness of a JSON value. -/
def jvTruthy : JVal → Bool
  | .num q => !(q == 0)
  | .str s => !(s == "")
  | .bool b => b
  | .null => false
  | .arr _ => true
  | .obj _ => true

/-- Property lookup on a parsed JSON object.  `JSON.parse` keeps the
last occurrence of a duplicated key, hence the reversed search. -/
def jlookup (fields : List (String × JVal)) (key : String) : Option JVal :=
  (fields.reverse.find? (fun kv => kv.1 == key)).map (·.2)

/-! ## JSON parser (model of `JSON.parse`)

A fuel-indexed recursive-descent parser for the JSON grammar
(objects, arrays, strings with escapes, numbers with fraction and
exponent, `true`/`false`/`null`).  It returns `none` exactly when
`JSON.parse` would throw. -/

def dquoteC : Char := Char.ofNat 34
def squoteC : Char := Char.ofNat 39
def lbraceC : Char := Char.ofNat 123
def rbraceC : Char := Char.ofNat 125
def backtickC : Char := Char.ofNat 96
def backslashC : Char := Char.ofNat 92

def isDigitC (c : Char) : Bool := '0' ≤ c && c ≤ '9'

def digitVal (c : Char) : Nat := c.toNat - '0'.toNat

/-- Value of one hexadecimal digit, written over code points. -/
def hexDigit (c : Char) : Option Nat :=
  let n := c.toNat
  if 48 ≤ n && n ≤ 57 then some (n - 48)
  else if 97 ≤ n && n ≤ 102 then some (n - 87)
  else if 65 ≤ n && n ≤ 70 then some (n - 55)
  else none

/-- Four hexadecimal digits and the rest of the input. -/
def hexQuad (cs : List Char) : Option (Nat × List Char) :=
  match cs with
  | a :: b :: c :: d :: rest =>
    match hexDigit a, hexDigit b, hexDigit c, hexDigit d with
    | some va, some vb, some vc, some vd =>
      some ([va, vb, vc, vd].foldl (fun acc v => acc * 16 + v) 0, rest)
    | _, _, _, _ => none
  | _ => none

/-- Parse a run of decimal digits, returning its value and count. -/
def parseDigits : List Char → Nat → Nat → (Nat × Nat × List Char)
  | [], acc, n => (acc, n, [])
  | c :: cs, acc, n =>
    if isDigitC c then parseDigits cs (acc * 10 + digitVal c) (n + 1)
    else (acc, n, c :: cs)

/-- Split an optional exponent marker and its signed digit run;
`none` when a marker is present without digits. -/
def splitExp (cs : List Char) : Option (Int × List Char) :=
  match cs with
  | m :: tail =>
    if m = 'e' || m = 'E' then
      let signed : Bool × List Char :=
        match tail with
        | s :: tail₂ =>
          if s = '-' then (true, tail₂)
          else if s = '+' then (false, tail₂)
          else (false, tail)
        | [] => (false, tail)
      let (v, n, r) := parseDigits signed.2 0 0
      if n = 0 then none
      else some (if signed.1 then -(v : Int) else (v : Int), r)
    else some (0, cs)
  | [] => some (0, [])

/-- Optional fraction: digits after a dot, or nothing. -/
def splitFrac (cs : List Char) : Nat × Nat × List Char :=
  match cs with
  | d :: tail => if d = '.' then parseDigits tail 0 0 else (0, 0, cs)
  | [] => (0, 0, cs)

/-- Parse a JSON number starting at the given characters. -/
def parseJsonNumber (cs : List Char) : Option (Rat × List Char) :=
  let neg : Bool := match cs with
    | s :: _ => s = '-'
    | [] => false
  let cs₁ := if neg then cs.drop 1 else cs
  let (ip, ic, cs₂) := parseDigits cs₁ 0 0
  if ic = 0 then none else
  let (fp, fc, cs₃) := splitFrac cs₂
  if cs₂ ≠ cs₃ ∧ fc = 0 then none else
  match splitExp cs₃ with
  | none => none
  | some (ev, cs₄) =>
    let mant : Int := (ip * 10 ^ fc + fp : Nat)
    let mant := if neg then -mant else mant
    some ((mant : Rat) * (10 : Rat) ^ (ev - (fc : Int)), cs₄)

/-- Interpret a JSON string-escape character. -/
def jsonEscape (e : Char) : Option Char :=
  if e = dquoteC then some dquoteC
  else if e = backslashC then some backslashC
  else if e = '/' then some '/'
  else if e = 'b' then some (Char.ofNat 8)
  else if e = 'f' then some (Char.ofNat 12)
  else if e = 'n' then some '\n'
  else if e = 'r' then some '\r'
  else if e = 't' then some '\t'
  else none

/-- Parse the body of a JSON string (after the opening quote). -/
def parseJsonString : Nat → List Char → Option (List Char × List Char)
  | 0, _ => none
  | _ + 1, [] => none
  | fuel + 1, c :: cs =>
    if c = dquoteC then some ([], cs)
    else if c = backslashC then
      match cs with
      | [] => none
      | 'u' :: tail =>
        match hexQuad tail with
        | some (code, cs'') =>
          (parseJsonString fuel cs'').map (fun p => (Char.ofNat code :: p.1, p.2))
        | none => none
      | e :: cs' =>
        match jsonEscape e with
        | some ch => (parseJsonString fuel cs').map (fun p => (ch :: p.1, p.2))
        | none => none
    else (parseJsonString fuel cs).map (fun p => (c :: p.1, p.2))

mutual

/-- Parse one JSON value after leading whitespace has been skipped. -/
def parseJVal : Nat → List Char → Option (JVal × List Char)
  | 0, _ => none
  | fuel + 1, cs =>
    let cs := cs.dropWhile wsChar
    match cs with
    | [] => none
    | c :: rest =>
      if c = lbraceC then
        let rest' := rest.dropWhile wsChar
        match rest' with
        | r :: rs =>
          if r = rbraceC then some (.obj [], rs)
          else (parseJMembers fuel (r :: rs)).map (fun p => (.obj p.1, p.2))
        | [] => none
      else if c = '[' then
        let rest' := rest.dropWhile wsChar
        match rest' with
        | r :: rs =>
          if r = ']' then some (.arr [], rs)
          else (parseJElems fuel (r :: rs)).map (fun p => (.arr p.1, p.2))
        | [] => none
      else if c = dquoteC then
        (parseJsonString (rest.length + 1) rest).map (fun p => (.str p.1.asString, p.2))
      else if chPrefix "true".data (c :: rest) then some (.bool true, (c :: rest).drop 4)
      else if chPrefix "false".data (c :: rest) then some (.bool false, (c :: rest).drop 5)
      else if chPrefix "null".data (c :: rest) then some (.null, (c :: rest).drop 4)
      else (parseJsonNumber (c :: rest)).map (fun p => (.num p.1, p.2))

/-- Parse the members of a JSON object (at least one `"key": value`). -/
def parseJMembers : Nat → List Char → Option (List (String × JVal) × List Char)
  | 0, _ => none
  | fuel + 1, cs =>
    let cs := cs.dropWhile wsChar
    match cs with
    | c :: rest =>
      if c = dquoteC then
        match parseJsonString (rest.length + 1) rest with
        | none => none
        | some (key, rest₁) =>
          match rest₁.dropWhile wsChar with
          | ':' :: rest₂ =>
            match parseJVal fuel rest₂ with
            | none => none
            | some (v, rest₃) =>
              match rest₃.dropWhile wsChar with
              | ',' :: rest₄ =>
                (parseJMembers fuel rest₄).map
                  (fun p => ((key.asString, v) :: p.1, p.2))
              | r :: rest₄ =>
                if r = rbraceC then some ([(key.asString, v)], rest₄) else none
              | [] => none
          | _ => none
      else none
    | [] => none

/-- Parse the elements of a JSON array (at least one value). -/
def parseJElems : Nat → List Char → Option (List JVal × List Char)
  | 0, _ => none
  | fuel + 1, cs =>
    match parseJVal fuel cs with
    | none => none
    | some (v, rest) =>
      match rest.dropWhile wsChar with
      | ',' :: rest' => (parseJElems fuel rest').map (fun p => (v :: p.1, p.2))
      | ']' :: rest' => some ([v], rest')
      | _ => none

end

/-- Model of `JSON.parse`: `none` exactly when the parse throws. -/
def jsonParse (s : String) : Option JVal :=
  match parseJVal (s.data.length + 1) s.data with
  | none => none
  | some (v, rest) => if (rest.dropWhile wsChar).isEmpty then some v else none

/-! ## `src/tools/local_parser.ts` -/

/-- The fixed candidate-skill vocabulary of `fallbackParseSkills`. -/
def skillCandidates : List String :=
  ["java", "python", "c++", "c", "go", "javascript", "typescript", "react",
   "node", "deno", "sql", "postgres", "mongodb", "rust", "docker",
   "kubernetes", "aws", "gcp", "azure", "ml", "machine learning", "nlp",
   "graphql", "rest", "git", "linux", "ci/cd"]

/-- `fallbackParseSkills` from `src/tools/local_parser.ts`: candidates
present as substrings of the lowercased text, in vocabulary order.
The source accumulates into a `Set`; since the vocabulary has no
duplicates this is the same as filtering the vocabulary. -/
def fallbackParseSkills (text : String) : List String :=
  skillCandidates.filter (fun s => jsIncludes (jsToLower text) s)

/-! ## `src/agent.ts`: the analysis result and the fallback analyzer -/

/-- The object `analyzeJDResume` resolves with.  `suggestions` and
`short_summary` are raw JSON values on the model path (the source never
validates them); the fallback path fills them with strings. -/
structure AnalysisResult where
  score : JNum
  matched_skills : List String
  missing_skills : List String
  suggestions : Option JVal
  short_summary : Option JVal

/-- `Math.round((m / n) * 100)` for natural `m`, `n` (`n > 0`): exact
round-half-up of `100 * m / n`, which is what the double-precision
computation in the source produces for the list lengths involved. -/
def jsRoundPct (m n : Nat) : Nat := (200 * m + n) / (2 * n)

/-- The fallback suggestion list built by `analyzeJDResume`
(both the main fallback block and the duplicated outer-catch block). -/
def fallbackSuggestions (matched missing : List String) : List String :=
  let s₁ : List String :=
    if missing.length > 0 then
      ["Add experience or projects demonstrating: " ++ joinSep ", " (missing.take 3)] ++
        (if missing.length > 3 then
          ["Consider highlighting transferable skills related to: " ++
            joinSep ", " ((missing.drop 3).take 2)]
        else [])
    else []
  let s₂ : List String :=
    s₁ ++
      (if matched.length > 0 then
        ["Emphasize your experience with: " ++ joinSep ", " (matched.take 3) ++
          " in your resume summary"]
      else [])
  if s₂.length = 0 then
    ["Review the job description and ensure all key requirements are clearly highlighted in your resume"]
  else s₂

/-- The deterministic fallback analysis (`src/agent.ts` lines 239-270,
duplicated verbatim in the outer catch at lines 276-303). -/
def fallbackAnalysis (jdText resumeText : String) : AnalysisResult :=
  let jdSkills := fallbackParseSkills jdText
  let resumeSkills := fallbackParseSkills resumeText
  let matched := jdSkills.filter (fun s => resumeSkills.contains s)
  let missing := jdSkills.filter (fun s => !resumeSkills.contains s)
  let score := jsRoundPct matched.length (max 1 jdSkills.length)
  { score := .val (score : Rat)
    matched_skills := matched
    missing_skills := missing
    suggestions := some (.arr ((fallbackSuggestions matched missing).map .str))
    short_summary := some (.str ("Estimated fit: " ++ toString score ++
      "/100. Matched " ++ toString matched.length ++ " skills, missing " ++
      toString missing.length ++ " skills.")) }

/-! ## `src/agent.ts`: extracting a JSON object from the model text

The source tries three regular expressions in order
(lines 148-156): a fenced code block, then a non-greedy
brace span, then a greedy brace span. -/

def fenceMarker : List Char := String.data "```"

/-- Index of the last occurrence of a character. -/
def chFindLastChar (c : Char) (cs : List Char) : Option Nat :=
  (chFind [c] cs.reverse).map (fun i => cs.length - 1 - i)

/-- Scan for the first closing brace that is followed by optional
whitespace and a closing fence (the lazy body of the fenced-block
pattern).  `seen` is the reversed capture accumulated so far. -/
def scanCloseBrace : List Char → List Char → Option (List Char)
  | _, [] => none
  | seen, c :: rs =>
    if c = rbraceC && chPrefix fenceMarker (rs.dropWhile wsChar) then
      some (seen.reverse ++ [rbraceC])
    else scanCloseBrace (c :: seen) rs

/-- After an opening fence (and optional `json` tag): optional
whitespace, an opening brace, then the lazy scan for the close. -/
def fencedBody (r : List Char) : Option (List Char) :=
  match r.dropWhile wsChar with
  | c :: rest => if c = lbraceC then scanCloseBrace [lbraceC] rest else none
  | [] => none

/-- Attempt the fenced-block pattern at the start of `s`; the greedy
optional `json` tag is tried first, then dropped on failure. -/
def matchFencedAt (s : List Char) : Option (List Char) :=
  if chPrefix fenceMarker s then
    let r := s.drop 3
    match (if chPrefix (String.data "json") r then fencedBody (r.drop 4) else none) with
    | some cap => some cap
    | none => fencedBody r
  else none

/-- Leftmost match of the fenced-block pattern; yields capture group 1. -/
def findFenced : List Char → Option (List Char)
  | [] => none
  | c :: cs =>
    match matchFencedAt (c :: cs) with
    | some cap => some cap
    | none => findFenced cs

/-- Leftmost match of the non-greedy brace-span pattern: from the first
opening brace to the first closing brace after it. -/
def matchBraceLazy (s : List Char) : Option (List Char) :=
  match chFind [lbraceC] s with
  | none => none
  | some i =>
    match chFind [rbraceC] (s.drop (i + 1)) with
    | none => none
    | some j => some ((s.drop i).take (j + 2))

/-- Leftmost match of the greedy brace-span pattern: from the first
opening brace to the last closing brace. -/
def matchBraceGreedy (s : List Char) : Option (List Char) :=
  match chFind [lbraceC] s, chFindLastChar rbraceC s with
  | some i, some j => if i < j then some ((s.drop i).take (j - i + 1)) else none
  | _, _ => none

/-- The three extraction attempts of `analyzeJDResume`, in source
order; the fenced pattern yields its capture group, the others the
whole match. -/
def extractJsonStr (t : String) : Option String :=
  match findFenced t.data with
  | some cap => some cap.asString
  | none =>
    match matchBraceLazy t.data with
    | some cap => some cap.asString
    | none => (matchBraceGreedy t.data).map List.asString

/-- Extracted span parsed by `JSON.parse`; a successful parse of a
brace span is always an object. -/
def extractParsedObj (t : String) : Option (List (String × JVal)) :=
  match extractJsonStr t with
  | none => none
  | some js =>
    match jsonParse js with
    | some (.obj fields) => some fields
    | _ => none

/-! ## `src/agent.ts`: number coercion and score clamping -/

/-- JS `Number(string)`: whitespace-trimmed empty string is `0`, a
decimal literal (optional sign, fraction, exponent) is its value,
anything else is NaN.  (Exotic forms such as hex literals are outside
the texts this program produces and are mapped to NaN.) -/
def parseJsDecimal (cs : List Char) : Option Rat :=
  let neg : Bool := match cs with
    | s :: _ => s = '-'
    | [] => false
  let signed : Bool := match cs with
    | s :: _ => s = '-' || s = '+'
    | [] => false
  let cs₁ := if signed then cs.drop 1 else cs
  let (ip, ic, cs₂) := parseDigits cs₁ 0 0
  let (fp, fc, cs₃) := splitFrac cs₂
  if ic = 0 ∧ fc = 0 then none else
  match splitExp cs₃ with
  | none => none
  | some (ev, cs₄) =>
    if !cs₄.isEmpty then none else
    let mant : Int := (ip * 10 ^ fc + fp : Nat)
    let mant := if neg then -mant else mant
    some ((mant : Rat) * (10 : Rat) ^ (ev - (fc : Int)))

/-- JS `Number(·)` on a string. -/
def jsNumberOfString (s : String) : JNum :=
  let t := chTrim s.data
  if t.isEmpty then .val 0
  else
    match parseJsDecimal t with
    | some q => .val q
    | none => .nan

/-- JS number coercion of a JSON value (`Number(v)`).  Arrays coerce
through their string form; the one-element cases that the program can
meet are modelled, other arrays and objects give NaN. -/
def jsToNumber : JVal → JNum
  | .num q => .val q
  | .str s => jsNumberOfString s
  | .bool b => .val (if b then 1 else 0)
  | .null => .val 0
  | .arr [] => .val 0
  | .arr [v] => jsToNumber v
  | .arr (_ :: _ :: _) => .nan
  | .obj _ => .nan

/-- JS `Math.max(a, x)` with NaN propagation. -/
def jsMaxNum (a : Rat) : JNum → JNum
  | .nan => .nan
  | .val q => .val (max a q)

/-- JS `Math.min(a, x)` with NaN propagation. -/
def jsMinNum (a : Rat) : JNum → JNum
  | .nan => .nan
  | .val q => .val (min a q)

/-- Line 171: `Math.min(100, Math.max(0, parsedJson.score || 0))`. -/
def jsClampScore (v : JVal) : JNum :=
  jsMinNum 100 (jsMaxNum 0 (jsToNumber (if jvTruthy v then v else .num 0)))

/-! ## `src/agent.ts`: the skill-consistency correction (lines 174-222) -/

/-- The fixed denylist of non-technical terms. -/
def nonTechnicalTerms : List String :=
  ["competitive salaries", "benefits", "benefits package", "salary", "compensation",
   "active startup positions", "startup", "full-time", "part-time", "remote",
   "years of experience", "experience", "degree", "bachelor", "master",
   "communication", "teamwork", "collaboration", "problem-solving", "testing",
   "company culture", "culture", "location", "relocation", "visa sponsorship"]

/-- Does the lowercased skill contain a denylisted term? -/
def hasNonTech (skillLower : String) : Bool :=
  nonTechnicalTerms.any (fun term => jsIncludes skillLower term)

/-- The `matched_skills` filter: drop denylisted entries and entries
not present in both lowercased texts, then trim and drop empties. -/
def matchedPass (jdLower resumeLower : String) (xs : List String) : List String :=
  ((xs.filter (fun skill =>
      let skillLower := jsToLower skill
      !hasNonTech skillLower &&
        jsIncludes jdLower skillLower && jsIncludes resumeLower skillLower)).map
    jsTrim).filter (fun s => s.data.length > 0)

/-- One step of the `missing_skills` filter.  The accumulator carries
the (mutated) `matched_skills` array and the kept missing entries. -/
def missingStep (jdLower resumeLower : String)
    (acc : List String × List String) (skill : String) : List String × List String :=
  let skillLower := jsToLower skill
  if hasNonTech skillLower then acc
  else if !jsIncludes jdLower skillLower then acc
  else if jsIncludes resumeLower skillLower then
    (if acc.1.any (fun s => jsToLower s == skillLower) then acc.1 else acc.1 ++ [skill],
      acc.2)
  else (acc.1, acc.2 ++ [skill])

/-- The full skill-consistency correction: the matched filter runs
first, the missing filter then pushes reclassified entries onto the
already-trimmed matched array, and finally the kept missing entries
are trimmed and cleaned of empties. -/
def correctSkills (jdLower resumeLower : String) (matchedRaw missingRaw : List String) :
    List String × List String :=
  let m₁ := matchedPass jdLower resumeLower matchedRaw
  let (m₂, kept) := missingRaw.foldl (missingStep jdLower resumeLower) (m₁, [])
  (m₂, (kept.map jsTrim).filter (fun s => s.data.length > 0))

/-- Elements of a parsed skill array must all be strings; a non-string
entry makes `toLowerCase` throw inside the filter callback, which the
enclosing `catch` turns into the fallback path (`none` here). -/
def asStrList : List JVal → Option (List String)
  | [] => some []
  | .str s :: vs => (asStrList vs).map (s :: ·)
  | _ :: _ => none

/-- `Array.isArray(v)` as a partial projection: the elements when the
(possibly absent) value is an array, `none` otherwise. -/
def asArr : Option JVal → Option (List JVal)
  | some (.arr xs) => some xs
  | _ => none

/-- Validation and correction of the parsed object
(lines 169-228): `score` must be present and both skill lists must be
arrays of strings; on success the score is clamped and the skill lists
corrected, `suggestions` and `short_summary` pass through unchecked. -/
def correctParsed (jdText resumeText : String)
    (fields : List (String × JVal)) : Option AnalysisResult :=
  match jlookup fields "score", asArr (jlookup fields "matched_skills"),
      asArr (jlookup fields "missing_skills") with
  | some sv, some mRaw, some missRaw =>
    match asStrList mRaw, asStrList missRaw with
    | some ms, some miss =>
      let jdLower := jsToLower jdText
      let resumeLower := jsToLower resumeText
      let (matched, missing) := correctSkills jdLower resumeLower ms miss
      some { score := jsClampScore sv
             matched_skills := matched
             missing_skills := missing
             suggestions := jlookup fields "suggestions"
             short_summary := jlookup fields "short_summary" }
    | _, _ => none
  | _, _, _ => none

/-- The `reply` error check (lines 164-167) ahead of validation: a
truthy string `reply` containing `"(error)"` forces the fallback; a
truthy non-string `reply` makes `.includes` throw, with the same
effect. -/
def afterParse (jdText resumeText : String)
    (fields : List (String × JVal)) : Option AnalysisResult :=
  match jlookup fields "reply" with
  | some rv =>
    if jvTruthy rv then
      match rv with
      | .str s =>
        if jsIncludes s "(error)" then none
        else correctParsed jdText resumeText fields
      | _ => none
    else correctParsed jdText resumeText fields
  | none => correctParsed jdText resumeText fields

/-! ## `src/agent.ts`: `analyzeJDResume` -/

/-- Abstracted outcome of the model interaction of `analyzeJDResume`:
provider/context construction threw (outer catch), the streamed call
threw or emitted an error event (inner catch, which clears the
buffer), or the accumulated response text. -/
inductive ModelOutcome where
  | initFailure : ModelOutcome
  | callFailure : ModelOutcome
  | success (resultText : String) : ModelOutcome

/-- Lines 139-272 of `src/agent.ts`: the error-text check, the JSON
extraction, validation and correction, and the fallback decision. -/
def afterModel (jdText resumeText resultText : String) : AnalysisResult :=
  let parsed : Option AnalysisResult :=
    if jsIncludes resultText "(error)" || jsIncludes resultText "error" then none
    else if resultText.data.length > 0 then
      match extractParsedObj resultText with
      | none => none
      | some fields => afterParse jdText resumeText fields
    else none
  match parsed with
  | some r => r
  | none => fallbackAnalysis jdText resumeText

/-- `analyzeJDResume` as a function of the two texts and the model
outcome.  The outer catch (lines 273-304) rebuilds the fallback
analysis with code identical to the main fallback block. -/
def analyzeJDResume (jdText resumeText : String) (mo : ModelOutcome) : AnalysisResult :=
  match mo with
  | .initFailure => fallbackAnalysis jdText resumeText
  | .callFailure => afterModel jdText resumeText ""
  | .success t => afterModel jdText resumeText t

/-! ## `src/tools/job_search.ts` -/

/-- A raw web-search result; `content` is absent on mock results. -/
structure SearchResultT where
  title : String
  url : String
  snippet : String
  content : Option String
deriving DecidableEq

/-- JS truthiness of an optional string parameter. -/
def jsStrTruthy : Option String → Bool
  | none => false
  | some s => !(s == "")

/-- `option || default` on optional string parameters. -/
def jsStrOr (o : Option String) (d : String) : String :=
  match o with
  | some s => if s == "" then d else s
  | none => d

/-- The fixed mock listings of `getMockJobResults`, with the
location suffix interpolated into every snippet. -/
def mockBaseJobs (location : Option String) : List SearchResultT :=
  let locationSuffix := if jsStrTruthy location then " in " ++ jsStrOr location "" else ""
  [{ title := "Senior Software Engineer - Backend", url := "#",
     snippet := "We\x27re looking for a Senior Software Engineer" ++ locationSuffix ++
       " with 5+ years of experience in Go, TypeScript, and distributed systems. Experience with Kubernetes, AWS, and microservices architecture required.",
     content := none },
   { title := "Full Stack Developer (TypeScript/React)", url := "#",
     snippet := "Join our team as a Full Stack Developer" ++ locationSuffix ++
       ". You\x27ll work with TypeScript, React, Node.js, and modern cloud technologies. Experience with Docker and CI/CD pipelines preferred.",
     content := none },
   { title := "DevOps Engineer - Cloud Infrastructure", url := "#",
     snippet := "Seeking a DevOps Engineer" ++ locationSuffix ++
       " to manage our cloud infrastructure. Must have experience with AWS, Kubernetes, Docker, and CI/CD. Knowledge of monitoring and automation tools essential.",
     content := none },
   { title := "Backend Engineer - Go/TypeScript", url := "#",
     snippet := "Backend Engineer position" ++ locationSuffix ++
       " requiring strong skills in Go and TypeScript. Experience with PostgreSQL, REST APIs, and microservices. Familiarity with Docker and Kubernetes is a plus.",
     content := none },
   { title := "Software Engineer - Distributed Systems", url := "#",
     snippet := "We need a Software Engineer" ++ locationSuffix ++
       " with expertise in distributed systems, Go, and cloud technologies. Experience with message queues, databases, and container orchestration required.",
     content := none },
   { title := "Senior Backend Engineer - Microservices", url := "#",
     snippet := "Senior Backend Engineer role" ++ locationSuffix ++
       " focusing on microservices architecture. Required: Go, TypeScript, Kubernetes, Docker, PostgreSQL. Experience with message brokers and event-driven systems preferred.",
     content := none },
   { title := "Full Stack Engineer - TypeScript/Node.js", url := "#",
     snippet := "Full Stack Engineer position" ++ locationSuffix ++
       ". Build scalable web applications with TypeScript, Node.js, React. Experience with cloud platforms (AWS/GCP), Docker, and CI/CD required.",
     content := none },
   { title := "Backend Developer - Go & Cloud", url := "#",
     snippet := "Backend Developer" ++ locationSuffix ++
       " specializing in Go and cloud infrastructure. Work with Kubernetes, Docker, PostgreSQL, and REST APIs. Strong understanding of distributed systems and microservices.",
     content := none }]

/-- `getMockJobResults`: the fixed mock set, loosely filtered by role
keywords in the query, falling back to the whole set when the filter
empties it, truncated to `limit`. -/
def getMockJobResults (query : String) (limit : Nat) (location : Option String) :
    List SearchResultT :=
  let baseJobs := mockBaseJobs location
  let lowerQuery := jsToLower query
  let filteredJobs :=
    if jsIncludes lowerQuery "backend" || jsIncludes lowerQuery "go" then
      baseJobs.filter (fun job =>
        jsIncludes (jsToLower job.title) "backend" || jsIncludes (jsToLower job.title) "go")
    else if jsIncludes lowerQuery "full stack" || jsIncludes lowerQuery "frontend" then
      baseJobs.filter (fun job =>
        jsIncludes (jsToLower job.title) "full stack" ||
          jsIncludes (jsToLower job.title) "frontend")
    else if jsIncludes lowerQuery "devops" then
      baseJobs.filter (fun job => jsIncludes (jsToLower job.title) "devops")
    else baseJobs
  let filteredJobs := if filteredJobs.length = 0 then baseJobs else filteredJobs
  filteredJobs.take limit

/-- Outcome of `performWebSearch` (a network call abstracted here):
it either threw, or resolved with a (possibly empty) result list.
Its internal posting-likeness filtering happens before this point. -/
inductive WebSearchOutcome where
  | threw : WebSearchOutcome
  | ok (results : List SearchResultT) : WebSearchOutcome

/-- `searchJobs` (job_search.ts lines 20-75): live results are
returned as-is when non-empty; otherwise mock data is used only when
no `TAVILY_API_KEY` is configured, and the empty list when one is. -/
def searchJobs (query : String) (location : Option String) (limit : Nat)
    (hasTavilyKey : Bool) (web : WebSearchOutcome) : List SearchResultT :=
  match web with
  | .ok results =>
    if results.length > 0 then results
    else if !hasTavilyKey then getMockJobResults query limit location
    else results
  | .threw =>
    if !hasTavilyKey then getMockJobResults query limit location
    else []

/-! ## `src/agent.ts`: `searchAndRankJobs` -/

/-- A ranked job listing. -/
structure JobListing where
  title : String
  company : Option String
  url : String
  description : String
  score : JNum
  matchDetails : Option (List String × List String)
deriving DecidableEq

/-- The result of `searchAndRankJobs`. -/
structure JobSearchResult where
  jobs : List JobListing
  totalFound : Nat
  searchQuery : String

/-- Caller preferences for the job search. -/
structure JobSearchPreferences where
  role : Option String
  location : Option String
  keywords : Option String

/-- The job-board name fragments filtered out of search results
(`src/agent.ts` lines 363-407), matched as substrings of the
lowercased URL so that every top-level-domain variant is caught. -/
def jobBoardNames : List String :=
  ["linkedin", "indeed", "glassdoor", "monster", "ziprecruiter", "simplyhired",
   "careerbuilder", "snagajob", "eluta", "workopolis",
   "dice", "builtin", "crunchboard", "hired", "arc.dev", "authenticjobs",
   "stackoverflow", "triplebyte", "jobright", "devjobsscanner", "levels.fyi",
   "wellfound", "angel.co", "weworkremotely", "flexjobs", "remote.co",
   "remotive", "remoteok", "relocate.me",
   "python.org", "golang.cafe", "ycombinator", "reddit.com/r/python",
   "reddit.com/r/golang", "reddit.com/r/forhire", "reddit.com/r/jobbit"]

/-- Is the (lowercased) URL on the job-board denylist? -/
def isJobBoardUrl (url : String) : Bool :=
  jobBoardNames.any (fun nm => jsIncludes (jsToLower url) nm)

/-- `title.split(" - ")[1]`: the text between the first and second
separator occurrence (to the end when there is no second one);
`none` when the separator does not occur (a single-part split). -/
def splitSecond (sep cs : List Char) : Option (List Char) :=
  match chFind sep cs with
  | none => none
  | some i =>
    let rest := cs.drop (i + sep.length)
    match chFind sep rest with
    | none => some rest
    | some j => some (rest.take j)

/-- `analysis.score || 0` on a JavaScript number. -/
def jnOrZero : JNum → Rat
  | .nan => 0
  | .val q => q

/-- Scoring of one surviving candidate (the loop body,
`src/agent.ts` lines 429-484).  `mo = none` models the per-candidate
`catch`: the job is kept with score 0 and no match details. -/
def candidateScore (resumeText : String) (fetch : String → String)
    (mo : Option ModelOutcome) (r : SearchResultT) : JobListing :=
  match mo with
  | none =>
    { title := r.title, company := none, url := r.url, description := r.snippet,
      score := .val 0, matchDetails := none }
  | some m =>
    let jobDescription := match r.content with
      | some c => if c == "" then r.snippet else c
      | none => r.snippet
    let jobDescription :=
      if jobDescription.data.length < 200 then
        let fullContent := fetch r.url
        if !(fullContent == "") && fullContent.data.length > jobDescription.data.length then
          fullContent
        else jobDescription
      else jobDescription
    let analysis := analyzeJDResume jobDescription resumeText m
    let cappedScore : Rat := min 100 (max 0 (jnOrZero analysis.score))
    let company := (splitSecond (String.data " - ") r.title.data).map List.asString
    let jobUrl :=
      if !(r.url == "") && !(jsTrim r.url == "") && !(r.url == "about:blank") then r.url
      else "#"
    { title := r.title
      company := company
      url := jobUrl
      description := (jobDescription.data.take 500).asString
      score := .val cappedScore
      matchDetails := some (analysis.matched_skills, analysis.missing_skills) }

/-- The sequential scoring loop over the (at most 3) candidates;
`outcomes i` abstracts the i-th model interaction. -/
def scoreCandidates (resumeText : String) (fetch : String → String)
    (outcomes : Nat → Option ModelOutcome) : Nat → List SearchResultT → List JobListing
  | _, [] => []
  | i, r :: rs =>
    candidateScore resumeText fetch (outcomes i) r ::
      scoreCandidates resumeText fetch outcomes (i + 1) rs

/-- The sort key: `score || 0`. -/
def sortKey (j : JobListing) : Rat := jnOrZero j.score

/-- Stable insertion of one element into a descending-sorted list:
the element passes over every earlier element with a key at least as
large, so equal keys keep their original relative order. -/
def insertByScore (x : JobListing) : List JobListing → List JobListing
  | [] => [x]
  | y :: ys => if sortKey y ≤ sortKey x then x :: y :: ys else y :: insertByScore x ys

/-- `jobsWithScores.sort((a, b) => (b.score || 0) - (a.score || 0))`:
`Array.prototype.sort` is stable, and a stable sort under this
comparator is exactly the descending stable insertion sort. -/
def jsSortByScoreDesc : List JobListing → List JobListing
  | [] => []
  | x :: xs => insertByScore x (jsSortByScoreDesc xs)

/-- The effective search query built from the preferences
(lines 339-346). -/
def searchQueryOf (prefs : JobSearchPreferences) : String :=
  let role := jsStrOr prefs.role "software engineer"
  if jsStrTruthy prefs.keywords then role ++ " " ++ jsStrOr prefs.keywords "" else role

/-- The scored candidate list before ranking: raw results, denylist
filter, truncation to 3, then the sequential scoring loop. -/
def rankedCandidates (resumeText : String) (prefs : JobSearchPreferences)
    (hasTavilyKey : Bool) (web : WebSearchOutcome)
    (fetch : String → String) (outcomes : Nat → Option ModelOutcome) : List JobListing :=
  scoreCandidates resumeText fetch outcomes 0
    (((searchJobs (searchQueryOf prefs) prefs.location 10 hasTavilyKey web).filter
      (fun r => !isJobBoardUrl r.url)).take 3)

/-- `searchAndRankJobs` (`src/agent.ts` lines 333-504).  The network
effects are abstracted: `web` is the raw search outcome, `fetch` the
per-URL content extractor, `outcomes i` the model interaction of the
i-th scored candidate (with `none` for a thrown analysis). -/
def searchAndRankJobs (resumeText : String) (prefs : JobSearchPreferences)
    (hasTavilyKey : Bool) (web : WebSearchOutcome)
    (fetch : String → String) (outcomes : Nat → Option ModelOutcome) : JobSearchResult :=
  let searchQuery := searchQueryOf prefs
  let locSuffix := if jsStrTruthy prefs.location then
      " " ++ jsStrOr prefs.location "" else ""
  let searchResults := searchJobs searchQuery prefs.location 10 hasTavilyKey web
  if searchResults.length = 0 then
    { jobs := [], totalFound := 0, searchQuery := searchQuery ++ locSuffix }
  else
    let filteredResults := searchResults.filter (fun r => !isJobBoardUrl r.url)
    if filteredResults.length = 0 then
      { jobs := [], totalFound := searchResults.length,
        searchQuery := searchQuery ++ locSuffix }
    else
      { jobs := jsSortByScoreDesc
          (rankedCandidates resumeText prefs hasTavilyKey web fetch outcomes)
        totalFound := searchResults.length
        searchQuery := searchQuery ++ locSuffix }

/-! ## Cover-letter text cleanup (part_006 `generateCoverLetter`, lines 859-1118)

Each regular expression of the source is embedded as an explicit
matcher.  All end-anchored patterns (`...$`, no `m` flag) can only
match a suffix reaching the true end of the string, so removing the
first match amounts to truncating at the least position whose suffix
matches. -/

/-- Case-insensitive literal prefix test (`pat` given lowercased). -/
def chPrefixCI (pat cs : List Char) : Bool :=
  chPrefix pat ((cs.take pat.length).map Char.toLower)

/-- Least index whose suffix satisfies `p`. -/
def findSuffixIdx (p : List Char → Bool) : List Char → Option Nat
  | [] => if p [] then some 0 else none
  | c :: cs => if p (c :: cs) then some 0 else (findSuffixIdx p cs).map (· + 1)

/-- Remove the first (hence end-anchored: the only) match of an
end-anchored pattern. -/
def removeEndMatch (p : List Char → Bool) (cs : List Char) : List Char :=
  match findSuffixIdx p cs with
  | none => cs
  | some i => cs.take i

/-- Strip a leading and a trailing run of quote characters
(`/^["\x27]+|["\x27]+$/g`). -/
def isQuoteC (c : Char) : Bool := c = dquoteC || c = squoteC

def stripEdgeQuotes (s : String) : String :=
  (((s.data.dropWhile isQuoteC).reverse.dropWhile isQuoteC).reverse).asString

/-- Global removal of lazily matched fence pairs
(the backtick-fence pair pattern with a lazy body): each match runs
from a fence to the next one; an unpaired final fence stays. -/
def stripFencePairsF : Nat → List Char → List Char
  | 0, cs => cs
  | _ + 1, [] => []
  | fuel + 1, c :: rest =>
    if chPrefix fenceMarker (c :: rest) then
      match chFind fenceMarker ((c :: rest).drop 3) with
      | none => c :: rest
      | some j => stripFencePairsF fuel (((c :: rest).drop 3).drop (j + 3))
    else c :: stripFencePairsF fuel rest

def stripFencePairs (cs : List Char) : List Char := stripFencePairsF (cs.length + 1) cs

def isWordC (c : Char) : Bool := c.isAlpha || isDigitC c || c = '_'

/-- Scanner state for the line-anchored fence removals: at a line
start, inside a line, or consuming an opening fence tag. -/
inductive FenceScan where
  | lineStart : FenceScan
  | midLine : FenceScan
  | inTag : FenceScan

/-- Multiline removal of opening fences at line starts (the
line-anchored opening-fence pattern: a fence plus word characters and
an optional newline); scanning resumes after the removed span. -/
def stripOpenFenceLinesF : Nat → FenceScan → List Char → List Char
  | 0, _, cs => cs
  | _ + 1, _, [] => []
  | fuel + 1, .inTag, c :: cs =>
    if isWordC c then stripOpenFenceLinesF fuel .inTag cs
    else if c = '\n' then stripOpenFenceLinesF fuel .lineStart cs
    else c :: stripOpenFenceLinesF fuel .midLine cs
  | fuel + 1, .lineStart, c :: cs =>
    if chPrefix fenceMarker (c :: cs) then stripOpenFenceLinesF fuel .inTag (cs.drop 2)
    else c :: stripOpenFenceLinesF fuel (if c = '\n' then .lineStart else .midLine) cs
  | fuel + 1, .midLine, c :: cs =>
    c :: stripOpenFenceLinesF fuel (if c = '\n' then .lineStart else .midLine) cs

def stripOpenFenceLines (st : FenceScan) (cs : List Char) : List Char :=
  stripOpenFenceLinesF (cs.length + 1) st cs

/-- Is the position at a line end (before a newline or at the end)? -/
def lineEndAfter : List Char → Bool
  | [] => true
  | c :: _ => c = '\n'

/-- Multiline removal of closing fences at line ends (the
line-anchored closing-fence pattern with an optional leading
newline). -/
def stripCloseFenceLinesF : Nat → List Char → List Char
  | 0, cs => cs
  | _ + 1, [] => []
  | fuel + 1, c :: rest =>
    if c = '\n' && chPrefix fenceMarker rest && lineEndAfter (rest.drop 3) then
      stripCloseFenceLinesF fuel (rest.drop 3)
    else if chPrefix fenceMarker (c :: rest) && lineEndAfter ((c :: rest).drop 3) then
      stripCloseFenceLinesF fuel ((c :: rest).drop 3)
    else c :: stripCloseFenceLinesF fuel rest

def stripCloseFenceLines (cs : List Char) : List Char :=
  stripCloseFenceLinesF (cs.length + 1) cs

/-- The JSON-structure unwrap (lines 871-878): triggered by the quoted
field names; a truthy `cover_letter` or `text` string field replaces
the text, a truthy non-string one later crashes the string surgery
(`none`), any parse failure keeps the text. -/
def jsonUnwrapCover (s : String) : Option String :=
  if jsIncludes s "\"cover_letter\"" || jsIncludes s "\"text\"" then
    match jsonParse s with
    | some (.obj fields) =>
      let pick : Option JVal :=
        match jlookup fields "cover_letter" with
        | some v => if jvTruthy v then some v else none
        | none => none
      let pick : Option JVal :=
        match pick with
        | some v => some v
        | none =>
          match jlookup fields "text" with
          | some v => if jvTruthy v then some v else none
          | none => none
      match pick with
      | some (.str t) => some t
      | some _ => none
      | none => some s
    | _ => some s
  else some s

/-- Index of the first `"dear"` in the lowercased text. -/
def dearIdx (s : String) : Option Nat :=
  chFind (String.data "dear") (s.data.map Char.toLower)

/-- Extent of the greeting pattern (case-insensitive `dear`,
whitespace, a non-empty non-comma run, a comma, trailing whitespace)
at the start of the text. -/
def matchGreetingAny (cs : List Char) : Option Nat :=
  if chPrefixCI (String.data "dear") cs then
    let rest := cs.drop 4
    match rest with
    | r :: _ =>
      if wsChar r then
        match chFind [','] rest with
        | some j =>
          if 2 ≤ j then
            some (4 + j + 1 + ((rest.drop (j + 1)).takeWhile wsChar).length)
          else none
        | none => none
      else none
    | [] => none
  else none

/-- Extent of the `dear hiring manager` pattern (case-insensitive,
with an optional comma and trailing whitespace) at the start. -/
def matchDearHiring (cs : List Char) : Option Nat :=
  if chPrefixCI (String.data "dear") cs then
    let r₁ := cs.drop 4
    let w₁ := (r₁.takeWhile wsChar).length
    if w₁ = 0 then none
    else
      let r₂ := r₁.drop w₁
      if chPrefixCI (String.data "hiring") r₂ then
        let r₃ := r₂.drop 6
        let w₂ := (r₃.takeWhile wsChar).length
        if w₂ = 0 then none
        else
          let r₄ := r₃.drop w₂
          if chPrefixCI (String.data "manager") r₄ then
            let r₅ := r₄.drop 7
            let commaLen := match r₅ with
              | ',' :: _ => 1
              | _ => 0
            some (4 + w₁ + 6 + w₂ + 7 + commaLen +
              ((r₅.drop commaLen).takeWhile wsChar).length)
          else none
      else none
  else none

/-- Extent of the newline-free greeting variant (the non-comma run may
not cross a newline) at the start. -/
def matchGreetingNoNl (cs : List Char) : Option Nat :=
  if chPrefixCI (String.data "dear") cs then
    let rest := cs.drop 4
    match rest with
    | r :: _ =>
      if wsChar r then
        let j := (rest.takeWhile (fun c => !(c = ',') && !(c = '\n'))).length
        match rest.drop j with
        | ',' :: _ =>
          if 2 ≤ j then
            some (4 + j + 1 + ((rest.drop (j + 1)).takeWhile wsChar).length)
          else none
        | _ => none
      else none
    | [] => none
  else none

/-- Repeated anchored stripping (a `while (match) replace` loop). -/
def loopStripF (m : List Char → Option Nat) : Nat → List Char → List Char
  | 0, cs => cs
  | fuel + 1, cs =>
    match m cs with
    | some n => if n = 0 then cs else loopStripF m fuel (cs.drop n)
    | none => cs

def loopStrip (m : List Char → Option Nat) (cs : List Char) : List Char :=
  loopStripF m (cs.length + 1) cs

/-- Lines 881-895: slice from the first `dear`, strip one general
greeting, then strip repeated `dear hiring manager` greetings. -/
def dearSlicePass (s : String) : String :=
  match dearIdx s with
  | none => s
  | some i =>
    let cs := s.data.drop i
    let cs := match matchGreetingAny cs with
      | some n => cs.drop n
      | none => cs
    (loopStrip matchDearHiring cs).asString

/-- The known instruction-leak marker phrases (lines 898-918). -/
def promptMarkers : List String :=
  ["You are a professional cover letter writer",
   "CRITICAL INSTRUCTIONS:",
   "Content Requirements:",
   "Output ONLY the cover letter",
   "Begin your response now",
   "IMPORTANT: Your response must contain",
   "Write a professional cover letter",
   "The cover letter should:",
   "Start with \"Dear Hiring Manager,\"",
   "Be 3-4 paragraphs",
   "First paragraph:",
   "Second paragraph:",
   "Third paragraph:",
   "Fourth paragraph:",
   "End with \"Sincerely,\"",
   "Use first person",
   "Be professional and enthusiastic",
   "Match the tone",
   "Do not include placeholders"]

/-- The else branch of a marker removal step (lines 929-941): for
colon or dash markers with a `dear` before them, the text is truncated
at the marker. -/
def promptMarkerElse (marker s : String) (markerIdx : Nat) : String :=
  if chPrefix ['-'] marker.data || jsIncludes marker ":" then
    if chContains ((s.data.take markerIdx).map Char.toLower) (String.data "dear") then
      (s.data.take markerIdx).asString
    else s
  else s

/-- One marker removal step (lines 921-943): text between the marker
and a later `dear` is cut; otherwise the else branch applies. -/
def promptMarkerPass1 (marker : String) (s : String) : String :=
  match chFind (marker.data.map Char.toLower) (s.data.map Char.toLower) with
  | none => s
  | some markerIdx =>
    match (chFind (String.data "dear") ((s.data.map Char.toLower).drop markerIdx)).map
        (· + markerIdx) with
    | some d =>
      if markerIdx < d then ((s.data.take markerIdx) ++ (s.data.drop d)).asString
      else promptMarkerElse marker s markerIdx
    | none => promptMarkerElse marker s markerIdx

/-- Lines 920-943: apply every marker removal in order. -/
def promptMarkersPass (s : String) : String :=
  promptMarkers.foldl (fun acc m => promptMarkerPass1 m acc) s

/-- The job-description/resume content markers (lines 946-956). -/
def contentMarkers : List String :=
  ["Job Description:", "Resume:", "Company:", "Education", "Technical Skills",
   "Experience", "Projects", "Extra-Curricular Activities", "About Me"]

/-- Lines 958-970: if any content marker appears before the first
`dear`, slice from that `dear` (the loop breaks on first hit, and
every hit has the same effect). -/
def contentMarkersPass (s : String) : String :=
  match dearIdx s with
  | none => s
  | some cleanDearIdx =>
    if contentMarkers.any (fun m =>
        match chFind m.data s.data with
        | some mi => decide (mi < cleanDearIdx)
        | none => false) then
      (s.data.drop cleanDearIdx).asString
    else s

/-- The resume-specific fragments (lines 974-988). -/
def resumeSections : List String :=
  ["Felix Ng", "+1 (778)", "FelixNg1022@gmail.com", "University of British Columbia",
   "Bachelors in Computer Science", "Languages:", "Frameworks:", "Developer Tools:",
   "Research Assistant", "IT Director", "JobMatch AI", "Presently", "Schedulii"]

def allWs (cs : List Char) : Bool := cs.all wsChar

def litCIThen (pat : List Char) (k : List Char → Bool) (cs : List Char) : Bool :=
  chPrefixCI pat cs && k (cs.drop pat.length)

def optCommaThen (k : List Char → Bool) (cs : List Char) : Bool :=
  (match cs with
    | ',' :: t => k t
    | _ => false) || k cs

/-- Local closing detection of the resume-section pass
(lines 996-1000): `Sincerely`, the `regards` family, or the
thank-you sentence, each anchored at the end. -/
def sincerelyEnd (cs : List Char) : Bool :=
  litCIThen (String.data "sincerely") (optCommaThen allWs) cs

def regardsFamilyEnd (cs : List Char) : Bool :=
  litCIThen (String.data "best regards") (optCommaThen allWs) cs ||
  litCIThen (String.data "regards") (optCommaThen allWs) cs ||
  litCIThen (String.data "yours sincerely") (optCommaThen allWs) cs

def thankYouEnd (cs : List Char) : Bool :=
  chPrefixCI (String.data "thank you for considering my application") cs &&
    (cs.drop 40).all (fun c => !(c = '.'))

/-- Did any of the three local closing patterns match?  (All are
end-anchored, so the recorded end position is the string length.) -/
def hasLocalClosing (cs : List Char) : Bool :=
  (findSuffixIdx sincerelyEnd cs).isSome ||
  (findSuffixIdx regardsFamilyEnd cs).isSome ||
  (findSuffixIdx thankYouEnd cs).isSome

/-- One resume-section step (lines 1011-1033) over the running text
and letter end; `letterStart` and the closing position are fixed
before the loop. -/
def resumeSectionStep (letterStart : Nat) (lastClosing : Option Nat)
    (st : List Char × Nat) (sct : String) : List Char × Nat :=
  let cur := st.1
  let letterEnd := st.2
  match chFind sct.data cur with
  | none => st
  | some sectionIdx =>
    let restCases : List Char × Nat :=
      if sectionIdx < letterStart then st
      else if letterStart < sectionIdx ∧ sectionIdx < letterStart + 100 then
        let beforeSection := chTrim ((cur.drop letterStart).take (sectionIdx - letterStart))
        if beforeSection.length < 50 then
          match (chFind (String.data "dear") ((cur.map Char.toLower).drop sectionIdx)).map
              (· + sectionIdx) with
          | some nd => if sectionIdx < nd then (cur.drop nd, letterEnd) else st
          | none => st
        else st
      else st
    match lastClosing with
    | some lc => if lc < sectionIdx then (cur, min letterEnd sectionIdx) else restCases
    | none => restCases

/-- Lines 990-1041: drop resume fragments trailing the closing, or
slide past fragments sitting right after the salutation, then slice
the letter span. -/
def resumeSectionsPass (s : String) : String :=
  match dearIdx s with
  | none => s
  | some letterStart =>
    let lastClosing : Option Nat :=
      if hasLocalClosing s.data then some s.data.length else none
    let st := resumeSections.foldl (resumeSectionStep letterStart lastClosing)
      (s.data, s.data.length)
    if st.2 < st.1.length then
      (chTrim ((st.1.drop letterStart).take (st.2 - letterStart))).asString
    else (chTrim (st.1.drop letterStart)).asString

/-- Lines 1044-1055: strip all leading greetings, three patterns each
looped to exhaustion. -/
def greetingLoopPass (s : String) : String :=
  (loopStrip matchGreetingNoNl
    (loopStrip matchDearHiring
      (loopStrip matchGreetingAny s.data))).asString

/-! ### The end-anchored closing-signature patterns (lines 1058-1067)

The four patterns combine a newline, optional whitespace, a closing
phrase, an optional comma, and (for two of them) a following name of
one to three words.  Under the case-insensitive flag the name classes
accept any ASCII letters.  Matchers are written in continuation style;
since every pattern is end-anchored only existence matters. -/

def closingWordCI (k : List Char → Bool) (cs : List Char) : Bool :=
  litCIThen (String.data "sincerely") k cs ||
  litCIThen (String.data "best regards") k cs ||
  litCIThen (String.data "regards") k cs ||
  litCIThen (String.data "yours sincerely") k cs ||
  litCIThen (String.data "yours truly") k cs

def anyWsSplit (k : List Char → Bool) : List Char → Bool
  | [] => k []
  | c :: cs => k (c :: cs) || (wsChar c && anyWsSplit k cs)

def anyWsPlus (k : List Char → Bool) : List Char → Bool
  | [] => false
  | c :: cs => wsChar c && anyWsSplit k cs

def alphaPlus (k : List Char → Bool) : List Char → Bool
  | [] => false
  | c :: cs => c.isAlpha && (k cs || alphaPlus k cs)

def wordCI (k : List Char → Bool) : List Char → Bool
  | [] => false
  | c :: cs => c.isAlpha && alphaPlus k cs

/-- A name of one word plus up to two further whitespace-separated
words, then trailing whitespace to the end. -/
def nameTail02 (cs : List Char) : Bool :=
  wordCI (fun r => allWs r ||
    anyWsPlus (wordCI (fun r₂ => allWs r₂ ||
      anyWsPlus (wordCI allWs) r₂)) r) cs

def nlThen (k : List Char → Bool) : List Char → Bool
  | [] => false
  | c :: cs => c = '\n' && k cs

def closingMatch1 (cs : List Char) : Bool :=
  nlThen (anyWsSplit (closingWordCI (optCommaThen
    (anyWsSplit (nlThen (anyWsSplit nameTail02)))))) cs

def closingMatch2 (cs : List Char) : Bool :=
  nlThen (anyWsSplit (closingWordCI (optCommaThen allWs))) cs

def closingMatch3 (cs : List Char) : Bool :=
  closingWordCI (optCommaThen (anyWsSplit (nlThen (anyWsSplit nameTail02)))) cs

def closingMatch4 (cs : List Char) : Bool :=
  closingWordCI (optCommaThen allWs) cs

def closingsPass (s : String) : String :=
  (removeEndMatch closingMatch4
    (removeEndMatch closingMatch3
      (removeEndMatch closingMatch2
        (removeEndMatch closingMatch1 s.data)))).asString

/-- The case-sensitive trailing-name pattern (lines 1070-1071): a
newline, optional whitespace, then two or three capitalized words and
trailing whitespace to the end. -/
def lowerPlus (k : List Char → Bool) : List Char → Bool
  | [] => false
  | c :: cs => c.isLower && (k cs || lowerPlus k cs)

def wordCS (k : List Char → Bool) : List Char → Bool
  | [] => false
  | c :: cs => c.isUpper && lowerPlus k cs

def nameAtEndMatch (cs : List Char) : Bool :=
  nlThen (anyWsSplit (wordCS (fun r =>
    anyWsPlus (wordCS (fun r₂ => allWs r₂ ||
      anyWsPlus (wordCS allWs) r₂)) r))) cs

def nameAtEndPass (s : String) : String :=
  (removeEndMatch nameAtEndMatch s.data).asString

/-- All (overlapping) positions of `"dear"` in the lowercased text. -/
def dearPositionsAux : Nat → List Char → List Nat
  | _, [] => []
  | i, c :: cs =>
    if chPrefix (String.data "dear") (c :: cs) then i :: dearPositionsAux (i + 1) cs
    else dearPositionsAux (i + 1) cs

/-- Lines 1075-1088: when a second `dear` occurs, truncate before it
and trim. -/
def dupDearPass (s : String) : String :=
  match dearPositionsAux 0 (s.data.map Char.toLower) with
  | _ :: second :: _ => (chTrim (s.data.take second)).asString
  | _ => s

/-- The fixed generic letter template (lines 1106-1115). -/
def fallbackCoverLetter : String :=
  "Dear Hiring Manager,\n\nI am writing to express my strong interest in the position. Based on the job description, I believe my background and skills align well with your requirements.\n\nMy experience includes relevant technical skills and professional achievements that would make me a valuable addition to your team. I am excited about the opportunity to contribute to your organization.\n\nThank you for considering my application. I look forward to discussing how my qualifications can benefit your team.\n\nSincerely,\n[Your Name]"

/-- The full cleanup pipeline (lines 859-1101), before the length
check.  `none` models the string surgery throwing after a non-string
JSON unwrap. -/
def coverLetterCleanup (resultText : String) : Option String :=
  let c₁ := stripEdgeQuotes (jsTrim resultText)
  let c₂ := (stripCloseFenceLines
    (stripOpenFenceLines .lineStart (stripFencePairs c₁.data))).asString
  (jsonUnwrapCover c₂).map (fun c₃ =>
    dupDearPass (nameAtEndPass (closingsPass (greetingLoopPass
      (resumeSectionsPass (contentMarkersPass (promptMarkersPass
        (dearSlicePass c₃))))))))

/-- Lines 1104-1116: substitute the generic template when the cleaned
text is empty or below the 100-character threshold. -/
def coverLetterChecked (resultText : String) : Option String :=
  (coverLetterCleanup resultText).map
    (fun c => if c.data.length < 100 then fallbackCoverLetter else c)

/-- The value `generateCoverLetter` resolves with, as a function of
the accumulated model response (line 1118 applies a final trim); the
streamed call and its failure paths re-throw before this point. -/
def generateCoverLetter (resultText : String) : Option String :=
  (coverLetterChecked resultText).map jsTrim

/-! ## Predicates used by the claim statements -/

/-- The score is a (non-NaN) number in the interval [0, 100]. -/
def scoreInRange : JNum → Prop
  | .nan => False
  | .val q => 0 ≤ q ∧ q ≤ 100

instance : (n : JNum) → Decidable (scoreInRange n)
  | .nan => isFalse (fun h => h)
  | .val q => inferInstanceAs (Decidable (0 ≤ q ∧ q ≤ 100))

/-- No skill occurs in both lists, compared case-insensitively. -/
def skillsDisjointCI (r : AnalysisResult) : Prop :=
  ∀ a ∈ r.matched_skills, ∀ b ∈ r.missing_skills, jsToLower a ≠ jsToLower b

instance (r : AnalysisResult) : Decidable (skillsDisjointCI r) :=
  inferInstanceAs (Decidable (∀ a ∈ r.matched_skills, ∀ b ∈ r.missing_skills, _ ≠ _))

/-- The `score` field of an extracted object is a JSON number. -/
def scoreIsNumB (fields : List (String × JVal)) : Bool :=
  match jlookup fields "score" with
  | some (.num _) => true
  | _ => false

/-- Every string entry of the extracted `missing_skills` array is
already whitespace-trimmed. -/
def missingTrimmedB (fields : List (String × JVal)) : Bool :=
  match jlookup fields "missing_skills" with
  | some (.arr xs) =>
    xs.all (fun v =>
      match v with
      | .str s => jsTrim s == s
      | _ => true)
  | _ => true

/-- The already-clean body of the generic cover letter (the template
with its salutation line removed), used as a concrete witness. -/
def cleanBody : String := (fallbackCoverLetter.data.drop 22).asString

/-! ## Support lemmas: occurrence search versus `List.IsInfix` -/

theorem chPrefix_iff {pat cs : List Char} : chPrefix pat cs = true ↔ pat <+: cs := by
  induction pat generalizing cs with
  | nil => simp [chPrefix]
  | cons a as ih =>
    cases cs with
    | nil => simp [chPrefix]
    | cons b bs =>
      simp only [chPrefix, Bool.and_eq_true, beq_iff_eq, ih, List.cons_prefix_cons]

theorem chContains_iff {hay pat : List Char} : chContains hay pat = true ↔ pat <:+: hay := by
  induction hay with
  | nil =>
    simp only [chContains, chFind, List.infix_nil]
    cases h : chPrefix pat [] with
    | true => simpa using chPrefix_iff.1 h
    | false =>
      simp only [if_false, Option.isSome_none, Bool.false_eq_true, false_iff]
      intro he
      subst he
      simp [chPrefix] at h
  | cons c cs ih =>
    simp only [chContains, chFind]
    cases h : chPrefix pat (c :: cs) with
    | true =>
      simp only [if_true, Option.isSome_some, true_iff]
      exact (chPrefix_iff.1 h).isInfix
    | false =>
      rw [if_neg (by simp)]
      simp only [List.infix_cons_iff]
      rw [chContains] at ih
      rw [show (Option.map (fun x => x + 1) (chFind pat cs)).isSome = (chFind pat cs).isSome
        from by cases chFind pat cs <;> rfl]
      rw [ih]
      have hnp : ¬ pat <+: c :: cs := fun hp => by simp [chPrefix_iff.2 hp] at h
      tauto

theorem chContains_false_iff {hay pat : List Char} :
    chContains hay pat = false ↔ ¬ pat <:+: hay := by
  rw [← chContains_iff]
  cases chContains hay pat <;> simp

/-- Occurrence is monotone in the haystack: no occurrence in `hay`
means no occurrence in any infix of `hay`. -/
theorem chContains_false_of_infix {hay hay' pat : List Char} (hsub : hay' <:+: hay)
    (h : chContains hay pat = false) : chContains hay' pat = false :=
  chContains_false_iff.2 fun hin =>
    chContains_false_iff.1 h (hin.trans hsub)

theorem chFind_eq_none_iff {pat cs : List Char} :
    chFind pat cs = none ↔ chContains cs pat = false := by
  cases h : chFind pat cs <;> simp [chContains, h]

theorem jsToLower_data (s : String) : (jsToLower s).data = s.data.map Char.toLower := rfl

theorem jsTrim_data (s : String) : (jsTrim s).data = chTrim s.data := rfl

theorem chTrim_within (cs : List Char) : chTrim cs <:+: cs := by
  unfold chTrim
  refine List.infix_iff_prefix_suffix.2 ⟨cs.dropWhile wsChar, ?_, List.dropWhile_suffix wsChar⟩
  rw [← List.reverse_suffix, List.reverse_reverse]
  exact List.dropWhile_suffix wsChar

/-- Containment of a lowercased skill survives trimming the skill. -/
theorem jsIncludes_lower_trim {hay s : String}
    (h : jsIncludes hay (jsToLower s) = true) :
    jsIncludes hay (jsToLower (jsTrim s)) = true := by
  rw [jsIncludes, chContains_iff] at h ⊢
  refine List.IsInfix.trans ?_ h
  rw [jsToLower_data, jsToLower_data, jsTrim_data]
  exact (chTrim_within s.data).map Char.toLower

/-! ## Claim C2 -/

/-- C2: on any provider-call failure (authentication, quota,
rate-limit, transport, or an error event in the stream),
`analyzeJDResume` does not propagate the error: it returns exactly the
deterministic fallback analysis of the same two texts. -/
theorem c2_provider_failure_falls_back (jdText resumeText : String) :
    analyzeJDResume jdText resumeText .callFailure = fallbackAnalysis jdText resumeText := rfl

/-! ## Claim C4 -/

/-- C4 (counterexample): on the spec scenario inputs, the fallback
path does not return `matched_skills = ["python"]`,
`missing_skills = ["docker"]`, `score = 50`: the single-letter
vocabulary entry `"c"` substring-matches `"docker"` and
`"experience"`, so the real output differs. -/
theorem c4_counterexample :
    ¬((analyzeJDResume "Senior engineer needs Python, Docker" "5 years Python experience"
          .callFailure).matched_skills = ["python"] ∧
      (analyzeJDResume "Senior engineer needs Python, Docker" "5 years Python experience"
          .callFailure).missing_skills = ["docker"] ∧
      (analyzeJDResume "Senior engineer needs Python, Docker" "5 years Python experience"
          .callFailure).score = .val 50) := by decide

/-- C4 (amended): on job text "Senior engineer needs Python, Docker"
and resume "5 years Python experience", the fallback path returns
`matched_skills = ["python", "c"]`, `missing_skills = ["docker"]` and
`score = 67` (2 of the 3 detected job skills matched, rounded). -/
theorem c4_fallback_scenario :
    (analyzeJDResume "Senior engineer needs Python, Docker" "5 years Python experience"
        .callFailure).matched_skills = ["python", "c"] ∧
    (analyzeJDResume "Senior engineer needs Python, Docker" "5 years Python experience"
        .callFailure).missing_skills = ["docker"] ∧
    (analyzeJDResume "Senior engineer needs Python, Docker" "5 years Python experience"
        .callFailure).score = .val 67 := by decide

/-! ## Claim C10 -/

/-- C10: whenever the accumulated model output contains the
case-sensitive substring `"error"` anywhere, the whole output is
discarded and the deterministic fallback analysis is returned, even if
the output carries a valid JSON object. -/
theorem c10_error_text_forces_fallback (jdText resumeText t : String)
    (h : jsIncludes t "error" = true) :
    analyzeJDResume jdText resumeText (.success t) = fallbackAnalysis jdText resumeText := by
  unfold analyzeJDResume afterModel
  simp [h]

/-- Witness for C10 at a response that contains a valid,
schema-conforming JSON object but also the word `"errors"`. -/
theorem c10_witness :
    jsIncludes "\x7b\"score\": 50, \"matched_skills\": [], \"missing_skills\": []\x7d tool errors occurred" "error" = true ∧
    (extractParsedObj "\x7b\"score\": 50, \"matched_skills\": [], \"missing_skills\": []\x7d tool errors occurred").isSome = true ∧
    analyzeJDResume "python" "python"
      (.success "\x7b\"score\": 50, \"matched_skills\": [], \"missing_skills\": []\x7d tool errors occurred") =
      fallbackAnalysis "python" "python" :=
  ⟨by decide, by decide,
    c10_error_text_forces_fallback "python" "python" _ (by decide)⟩

/-! ## Claim C3 -/

/-- C3: mock listings are served only when no search credential is
configured; with a configured credential, a thrown search or an empty
result list yields the empty list, and non-empty live results are
passed through unchanged. -/
theorem c3_mock_only_without_key (query : String) (location : Option String) (limit : Nat) :
    (searchJobs query location limit true .threw = [] ∧
     searchJobs query location limit true (.ok []) = [] ∧
     searchJobs query location limit false .threw = getMockJobResults query limit location ∧
     searchJobs query location limit false (.ok []) = getMockJobResults query limit location) ∧
    ∀ (hasKey : Bool) (results : List SearchResultT), results ≠ [] →
      searchJobs query location limit hasKey (.ok results) = results := by
  refine ⟨⟨rfl, rfl, rfl, rfl⟩, ?_⟩
  intro hasKey results hne
  show (if results.length > 0 then results
    else if (!hasKey) = true then getMockJobResults query limit location else results) = results
  rw [if_pos (Nat.pos_of_ne_zero (fun h => hne (List.eq_nil_of_length_eq_zero h)))]

/-- Witness for C3: a non-empty live result set passes through. -/
theorem c3_witness :
    searchJobs "software engineer" none 10 true
      (.ok [{ title := "Platform Engineer", url := "https://example.com/careers/1",
              snippet := "Python role", content := none }]) =
      [{ title := "Platform Engineer", url := "https://example.com/careers/1",
         snippet := "Python role", content := none }] :=
  (c3_mock_only_without_key "software engineer" none 10).2 true _ (List.cons_ne_nil _ _)

/-! ## Claim C9 -/

/-- C9 (counterexample): a response whose cleanup ends in whitespace
can come out of `generateCoverLetter` shorter than 100 characters: the
97-character result below fails the claimed bound. -/
theorem c9_counterexample :
    (generateCoverLetter ((List.replicate 97 'A').asString ++ "   \nSincerely,")).map
        (fun s => s.data.length) = some 97 ∧ 97 < 100 := by
  exact ⟨by decide, by decide⟩

/-- C9 (amended): the length threshold is enforced before the final
trim: the checked value is the generic template whenever the cleaned
text is shorter than 100 characters, so the pre-trim result always has
at least 100 characters; only the final edge-whitespace trim of the
returned value can go below that. -/
theorem c9_pre_trim_min_length (resultText c : String)
    (h : coverLetterChecked resultText = some c) : 100 ≤ c.data.length := by
  unfold coverLetterChecked at h
  cases hc : coverLetterCleanup resultText with
  | none => rw [hc] at h; exact absurd h (by simp)
  | some c₀ =>
    rw [hc] at h
    simp only [Option.map_some'] at h
    by_cases hlen : c₀.data.length < 100
    · rw [if_pos hlen] at h
      rw [← Option.some.inj h]
      decide
    · rw [if_neg hlen] at h
      rw [← Option.some.inj h]
      omega

/-- Witness for C9 (amended): the empty response is checked into the
full-length template. -/
theorem c9_amended_witness :
    coverLetterChecked "" = some fallbackCoverLetter ∧
    100 ≤ fallbackCoverLetter.data.length :=
  ⟨by decide, c9_pre_trim_min_length "" fallbackCoverLetter (by decide)⟩

/-! ## Claim C6 -/

/-- An object whose `score` is absent, or whose skill lists are not
arrays, makes `correctParsed` reject. -/
theorem correctParsed_none_of_bad {jdText resumeText : String}
    {fields : List (String × JVal)}
    (hbad : jlookup fields "score" = none ∨
      asArr (jlookup fields "matched_skills") = none ∨
      asArr (jlookup fields "missing_skills") = none) :
    correctParsed jdText resumeText fields = none := by
  unfold correctParsed
  rcases h₁ : jlookup fields "score" with _ | sv <;>
    rcases h₂ : asArr (jlookup fields "matched_skills") with _ | ms <;>
      rcases h₃ : asArr (jlookup fields "missing_skills") with _ | mis <;>
        try rfl
  rw [h₁, h₂, h₃] at hbad
  rcases hbad with h | h | h <;> exact absurd h (by simp)

/-- Rejection propagates through the `reply` pre-check. -/
theorem afterParse_none_of_correct_none {jdText resumeText : String}
    {fields : List (String × JVal)}
    (h : correctParsed jdText resumeText fields = none) :
    afterParse jdText resumeText fields = none := by
  unfold afterParse
  rcases hrv : jlookup fields "reply" with _ | rv
  · exact h
  · dsimp only
    by_cases ht : jvTruthy rv = true
    · rw [if_pos ht]
      cases rv with
      | str s =>
        dsimp only
        by_cases hi : jsIncludes s "(error)" = true
        · rw [if_pos hi]
        · rw [if_neg hi]; exact h
      | num q => rfl
      | bool b => rfl
      | null => rfl
      | arr xs => rfl
      | obj fs => rfl
    · rw [if_neg ht]
      exact h

/-- A rejected object always yields the fallback analysis. -/
theorem afterModel_fallback_of_reject {jdText resumeText t : String}
    (h : (extractParsedObj t).bind (fun fields =>
      afterParse jdText resumeText fields) = none) :
    afterModel jdText resumeText t = fallbackAnalysis jdText resumeText := by
  unfold afterModel
  by_cases he : (jsIncludes t "(error)" || jsIncludes t "error") = true
  · rw [if_pos he]
  · rw [if_neg he]
    by_cases hl : t.data.length > 0
    · rw [if_pos hl]
      cases hf : extractParsedObj t with
      | none => rfl
      | some fields =>
        rw [hf, Option.some_bind] at h
        dsimp only
        rw [h]
    · rw [if_neg hl]

/-- C6 (counterexample): a present but non-numeric `score`
(`"high"`) is not rejected: the model result — with a NaN score — is
returned instead of the fallback analysis. -/
theorem c6_counterexample :
    (extractParsedObj "\x7b\"score\": \"high\", \"matched_skills\": [], \"missing_skills\": []\x7d").isSome = true ∧
    (analyzeJDResume "python" "python"
      (.success "\x7b\"score\": \"high\", \"matched_skills\": [], \"missing_skills\": []\x7d")).score = .nan ∧
    (fallbackAnalysis "python" "python").score = .val 100 ∧
    analyzeJDResume "python" "python"
        (.success "\x7b\"score\": \"high\", \"matched_skills\": [], \"missing_skills\": []\x7d") ≠
      fallbackAnalysis "python" "python" :=
  ⟨by decide, by decide, by decide,
    fun h => absurd (congrArg AnalysisResult.score h) (by decide)⟩

/-- C6 (amended): extraction rejects the object — and the fallback
analysis is returned — when the `score` field is absent or when
`matched_skills` or `missing_skills` is not list-shaped; a present
non-numeric score, however, is accepted and merely clamped through
number coercion (possibly to NaN). -/
theorem c6_reject_malformed (jdText resumeText t : String)
    (fields : List (String × JVal))
    (hf : extractParsedObj t = some fields)
    (hbad : jlookup fields "score" = none ∨
      asArr (jlookup fields "matched_skills") = none ∨
      asArr (jlookup fields "missing_skills") = none) :
    analyzeJDResume jdText resumeText (.success t) = fallbackAnalysis jdText resumeText := by
  show afterModel jdText resumeText t = fallbackAnalysis jdText resumeText
  refine afterModel_fallback_of_reject ?_
  rw [hf, Option.some_bind]
  exact afterParse_none_of_correct_none (correctParsed_none_of_bad hbad)

/-- Witness for C6 (amended): an object with no `score` field is
rejected into the fallback analysis. -/
theorem c6_witness :
    analyzeJDResume "python docker" "python" (.success "\x7b\"matched_skills\": []\x7d") =
      fallbackAnalysis "python docker" "python" :=
  c6_reject_malformed "python docker" "python" "\x7b\"matched_skills\": []\x7d"
    [("matched_skills", JVal.arr [])] rfl (Or.inl rfl)

/-! ## Claims C7 and C8: membership, sortedness, stability lemmas -/

theorem mem_insertByScore {x y : JobListing} {l : List JobListing} :
    y ∈ insertByScore x l ↔ y = x ∨ y ∈ l := by
  induction l with
  | nil => simp [insertByScore]
  | cons z zs ih =>
    unfold insertByScore
    by_cases hc : sortKey z ≤ sortKey x
    · rw [if_pos hc]
      simp only [List.mem_cons]
    · rw [if_neg hc]
      simp only [List.mem_cons, ih]
      tauto

theorem mem_jsSortByScoreDesc {y : JobListing} {l : List JobListing} :
    y ∈ jsSortByScoreDesc l ↔ y ∈ l := by
  induction l with
  | nil => simp [jsSortByScoreDesc]
  | cons x xs ih =>
    unfold jsSortByScoreDesc
    rw [mem_insertByScore, ih]
    simp [List.mem_cons]

theorem pairwise_insertByScore {x : JobListing} {l : List JobListing}
    (h : List.Pairwise (fun a b => sortKey b ≤ sortKey a) l) :
    List.Pairwise (fun a b => sortKey b ≤ sortKey a) (insertByScore x l) := by
  induction l with
  | nil => simp [insertByScore]
  | cons y ys ih =>
    rw [List.pairwise_cons] at h
    unfold insertByScore
    by_cases hc : sortKey y ≤ sortKey x
    · rw [if_pos hc]
      rw [List.pairwise_cons]
      refine ⟨?_, List.pairwise_cons.2 h⟩
      intro b hb
      rcases List.mem_cons.1 hb with hb | hb
      · rw [hb]; exact hc
      · exact le_trans (h.1 b hb) hc
    · rw [if_neg hc]
      rw [List.pairwise_cons]
      refine ⟨?_, ih h.2⟩
      intro b hb
      rcases mem_insertByScore.1 hb with hb | hb
      · rw [hb]; exact le_of_lt (lt_of_not_le hc)
      · exact h.1 b hb

theorem pairwise_jsSortByScoreDesc (l : List JobListing) :
    List.Pairwise (fun a b => sortKey b ≤ sortKey a) (jsSortByScoreDesc l) := by
  induction l with
  | nil => simp [jsSortByScoreDesc]
  | cons x xs ih => exact pairwise_insertByScore ih

theorem filter_insertByScore (x : JobListing) (l : List JobListing) (v : Rat) :
    (insertByScore x l).filter (fun j => sortKey j == v) =
      if sortKey x == v then x :: l.filter (fun j => sortKey j == v)
      else l.filter (fun j => sortKey j == v) := by
  induction l with
  | nil =>
    by_cases hx : (sortKey x == v) = true <;>
      simp [insertByScore, List.filter_cons, hx]
  | cons y ys ih =>
    unfold insertByScore
    by_cases hc : sortKey y ≤ sortKey x
    · rw [if_pos hc]
      by_cases hx : (sortKey x == v) = true <;>
        simp [List.filter_cons, hx]
    · rw [if_neg hc]
      by_cases hy : (sortKey y == v) = true
      · have hyv : sortKey y = v := by simpa using hy
        have hxv : (sortKey x == v) = false := by
          simp only [beq_eq_false_iff_ne, ne_eq]
          intro hxe
          have hlt := lt_of_not_le hc
          rw [hxe, hyv] at hlt
          exact lt_irrefl v hlt
        simp [List.filter_cons, hy, hxv, ih]
      · by_cases hx : (sortKey x == v) = true <;>
          simp [List.filter_cons, hy, hx, ih]

theorem filter_jsSortByScoreDesc (l : List JobListing) (v : Rat) :
    (jsSortByScoreDesc l).filter (fun j => sortKey j == v) =
      l.filter (fun j => sortKey j == v) := by
  induction l with
  | nil => rfl
  | cons x xs ih =>
    unfold jsSortByScoreDesc
    rw [filter_insertByScore, ih]
    by_cases hx : sortKey x == v
    · rw [if_pos hx]; simp [List.filter, hx]
    · rw [if_neg hx]
      have hxf : (sortKey x == v) = false := by simpa using hx
      simp [List.filter, hxf]

/-- Each scored candidate originates from one raw result, with the
original URL or the `"#"` placeholder. -/
theorem mem_scoreCandidates {resumeText : String} {fetch : String → String}
    {outcomes : Nat → Option ModelOutcome} {i : Nat} {rs : List SearchResultT}
    {j : JobListing} (hj : j ∈ scoreCandidates resumeText fetch outcomes i rs) :
    ∃ r ∈ rs, j.url = r.url ∨ j.url = "#" := by
  induction rs generalizing i with
  | nil => cases hj
  | cons r rs ih =>
    rcases List.mem_cons.1 hj with hj | hj
    · refine ⟨r, List.mem_cons_self r rs, ?_⟩
      rw [hj]
      unfold candidateScore
      cases outcomes i with
      | none => exact Or.inl rfl
      | some m =>
        dsimp only
        by_cases hu : (!(r.url == "") && !(jsTrim r.url == "") && !(r.url == "about:blank")) = true
        · rw [if_pos hu]; exact Or.inl rfl
        · rw [if_neg hu]; exact Or.inr rfl
    · obtain ⟨r', hr', hu⟩ := ih hj
      exact ⟨r', List.mem_cons_of_mem r hr', hu⟩

/-! ## Claim C7 -/

/-- C7: every result whose lowercased URL contains a denylisted
job-board name fragment is excluded from the ranked jobs: no returned
job has a denylisted URL — and the fragments catch every top-level
domain variant (`indeed.com`, `indeed.ca`, `indeed.co.uk`, …). -/
theorem c7_denylist_filtering (resumeText : String) (prefs : JobSearchPreferences)
    (hasTavilyKey : Bool) (web : WebSearchOutcome) (fetch : String → String)
    (outcomes : Nat → Option ModelOutcome) (j : JobListing)
    (hj : j ∈ (searchAndRankJobs resumeText prefs hasTavilyKey web fetch outcomes).jobs) :
    isJobBoardUrl j.url = false ∧
    isJobBoardUrl "https://indeed.com/viewjob?jk=1" = true ∧
    isJobBoardUrl "https://indeed.ca/viewjob?jk=1" = true ∧
    isJobBoardUrl "https://indeed.co.uk/viewjob?jk=1" = true := by
  refine ⟨?_, by decide, by decide, by decide⟩
  unfold searchAndRankJobs at hj
  by_cases h₁ : (searchJobs (searchQueryOf prefs) prefs.location 10 hasTavilyKey web).length = 0
  · rw [if_pos h₁] at hj
    cases hj
  · rw [if_neg h₁] at hj
    by_cases h₂ : ((searchJobs (searchQueryOf prefs) prefs.location 10 hasTavilyKey
        web).filter (fun r => !isJobBoardUrl r.url)).length = 0
    · rw [if_pos h₂] at hj
      cases hj
    · rw [if_neg h₂] at hj
      dsimp only at hj
      rw [mem_jsSortByScoreDesc] at hj
      unfold rankedCandidates at hj
      obtain ⟨r, hr, hu⟩ := mem_scoreCandidates hj
      have hrf := List.mem_of_mem_take hr
      have hkeep : (!isJobBoardUrl r.url) = true := (List.mem_filter.1 hrf).2
      rcases hu with hu | hu
      · rw [hu]
        simpa using hkeep
      · rw [hu]
        decide

/-- Witness for C7: with live results from three `indeed` country
domains and one company site, only the company job survives, and its
URL is clean. -/
theorem c7_witness :
    isJobBoardUrl "https://acme.example/careers/4" = false :=
  (c7_denylist_filtering "Python developer resume" ⟨some "engineer", none, none⟩ true
    (.ok [⟨"Job A", "https://indeed.com/viewjob?jk=1", "a", none⟩,
          ⟨"Job B", "https://indeed.ca/viewjob?jk=2", "b", none⟩,
          ⟨"Job C", "https://indeed.co.uk/viewjob?jk=3", "c", none⟩,
          ⟨"Engineer - Acme", "https://acme.example/careers/4", "Python role", none⟩])
    (fun _ => "") (fun _ => none)
    { title := "Engineer - Acme", company := none,
      url := "https://acme.example/careers/4", description := "Python role",
      score := .val 0, matchDetails := none }
    (by decide)).1

/-! ## Claim C8 -/

/-- C8: the ranked jobs are sorted in descending score order, the sort
is stable (for every score value, the equal-score jobs keep their
original relative order from the scored-candidate list), and the
returned `jobs` are exactly the stable descending sort of the scored
candidates. -/
theorem c8_ranking_sorted_stable :
    (∀ l : List JobListing,
      List.Pairwise (fun a b => sortKey b ≤ sortKey a) (jsSortByScoreDesc l) ∧
      ∀ v : Rat, (jsSortByScoreDesc l).filter (fun j => sortKey j == v) =
        l.filter (fun j => sortKey j == v)) ∧
    ∀ (resumeText : String) (prefs : JobSearchPreferences) (hasTavilyKey : Bool)
      (web : WebSearchOutcome) (fetch : String → String)
      (outcomes : Nat → Option ModelOutcome),
      (searchAndRankJobs resumeText prefs hasTavilyKey web fetch outcomes).jobs =
        jsSortByScoreDesc (rankedCandidates resumeText prefs hasTavilyKey web fetch outcomes) := by
  constructor
  · intro l
    exact ⟨pairwise_jsSortByScoreDesc l, fun v => filter_jsSortByScoreDesc l v⟩
  · intro resumeText prefs hasTavilyKey web fetch outcomes
    unfold searchAndRankJobs
    by_cases h₁ : (searchJobs (searchQueryOf prefs) prefs.location 10 hasTavilyKey web).length = 0
    · rw [if_pos h₁]
      unfold rankedCandidates
      rw [List.length_eq_zero.1 h₁]
      rfl
    · rw [if_neg h₁]
      by_cases h₂ : ((searchJobs (searchQueryOf prefs) prefs.location 10 hasTavilyKey
          web).filter (fun r => !isJobBoardUrl r.url)).length = 0
      · rw [if_pos h₂]
        unfold rankedCandidates
        rw [List.length_eq_zero.1 h₂]
        rfl
      · rw [if_neg h₂]

/-! ## Claim C1: score range and skill-list disjointness -/

theorem jsRoundPct_le_100 {m n : Nat} (hm : m ≤ n) (hn : 0 < n) : jsRoundPct m n ≤ 100 := by
  unfold jsRoundPct
  have h2n : 0 < 2 * n := by omega
  have := (Nat.div_lt_iff_lt_mul (x := 200 * m + n) (y := 101) h2n).2 (by omega)
  omega

theorem fallbackAnalysis_score (jd res : String) :
    (fallbackAnalysis jd res).score =
      .val ((jsRoundPct
        ((fallbackParseSkills jd).filter (fun s => (fallbackParseSkills res).contains s)).length
        (max 1 (fallbackParseSkills jd).length) : Nat) : Rat) := rfl

theorem fallbackAnalysis_matched (jd res : String) :
    (fallbackAnalysis jd res).matched_skills =
      (fallbackParseSkills jd).filter (fun s => (fallbackParseSkills res).contains s) := rfl

theorem fallbackAnalysis_missing (jd res : String) :
    (fallbackAnalysis jd res).missing_skills =
      (fallbackParseSkills jd).filter (fun s => !(fallbackParseSkills res).contains s) := rfl

theorem fallback_scoreInRange (jd res : String) :
    scoreInRange (fallbackAnalysis jd res).score := by
  rw [fallbackAnalysis_score]
  refine ⟨by positivity, ?_⟩
  have h : jsRoundPct
      ((fallbackParseSkills jd).filter (fun s => (fallbackParseSkills res).contains s)).length
      (max 1 (fallbackParseSkills jd).length) ≤ 100 :=
    jsRoundPct_le_100
      (le_trans (List.length_filter_le _ _) (le_max_right 1 (fallbackParseSkills jd).length))
      (lt_of_lt_of_le one_pos (le_max_left 1 _))
  exact_mod_cast h

theorem skillCandidates_lower_fixed : ∀ c ∈ skillCandidates, jsToLower c = c := by decide

theorem fallback_disjoint (jd res : String) : skillsDisjointCI (fallbackAnalysis jd res) := by
  intro a ha b hb heq
  rw [fallbackAnalysis_matched] at ha
  rw [fallbackAnalysis_missing] at hb
  have hac : a ∈ skillCandidates := List.mem_of_mem_filter (List.mem_of_mem_filter ha)
  have hbc : b ∈ skillCandidates := List.mem_of_mem_filter (List.mem_of_mem_filter hb)
  have hab : a = b := by
    have h₁ := skillCandidates_lower_fixed a hac
    have h₂ := skillCandidates_lower_fixed b hbc
    rw [← h₁, ← h₂, heq]
  subst hab
  have ha2 : ((fallbackParseSkills res).contains a) = true := (List.mem_filter.1 ha).2
  have hb2 : (!(fallbackParseSkills res).contains a) = true := (List.mem_filter.1 hb).2
  rw [ha2] at hb2
  cases hb2

theorem jsClampScore_num (q : Rat) : scoreInRange (jsClampScore (.num q)) := by
  unfold jsClampScore
  by_cases hq : jvTruthy (.num q) = true
  · rw [if_pos hq]
    exact ⟨le_min (by norm_num) (le_max_left 0 q), min_le_left 100 _⟩
  · rw [if_neg hq]
    exact ⟨le_min (by norm_num) (le_max_left 0 0), min_le_left 100 _⟩

theorem matchedPass_includes {jdL rl : String} {xs : List String} {a : String}
    (ha : a ∈ matchedPass jdL rl xs) : jsIncludes rl (jsToLower a) = true := by
  unfold matchedPass at ha
  obtain ⟨ha2, _⟩ := List.mem_filter.1 ha
  obtain ⟨r, hr, hra⟩ := List.mem_map.1 ha2
  have hp := (List.mem_filter.1 hr).2
  simp only [Bool.and_eq_true] at hp
  rw [← hra]
  exact jsIncludes_lower_trim hp.2

theorem missingFold_matched_inv {jdL rl : String} (miss : List String)
    (acc : List String × List String)
    (hacc : ∀ x ∈ acc.1, jsIncludes rl (jsToLower x) = true) :
    ∀ x ∈ (miss.foldl (missingStep jdL rl) acc).1, jsIncludes rl (jsToLower x) = true := by
  induction miss generalizing acc with
  | nil => exact hacc
  | cons s ss ih =>
    rw [List.foldl_cons]
    apply ih
    unfold missingStep
    by_cases h₁ : hasNonTech (jsToLower s) = true
    · rw [if_pos h₁]; exact hacc
    · rw [if_neg h₁]
      by_cases h₂ : (!jsIncludes jdL (jsToLower s)) = true
      · rw [if_pos h₂]; exact hacc
      · rw [if_neg h₂]
        by_cases h₃ : jsIncludes rl (jsToLower s) = true
        · rw [if_pos h₃]
          dsimp only
          by_cases h₄ : (acc.1.any fun m => jsToLower m == jsToLower s) = true
          · rw [if_pos h₄]; exact hacc
          · rw [if_neg h₄]
            intro x hx
            rcases List.mem_append.1 hx with hx | hx
            · exact hacc x hx
            · rw [List.mem_singleton.1 hx]; exact h₃
        · rw [if_neg h₃]; exact hacc

theorem missingFold_kept_inv {jdL rl : String} (miss : List String)
    (acc : List String × List String)
    (htrim : ∀ s ∈ miss, jsTrim s = s)
    (hacc : ∀ y ∈ acc.2, jsIncludes rl (jsToLower y) = false ∧ jsTrim y = y) :
    ∀ y ∈ (miss.foldl (missingStep jdL rl) acc).2,
      jsIncludes rl (jsToLower y) = false ∧ jsTrim y = y := by
  induction miss generalizing acc with
  | nil => exact hacc
  | cons s ss ih =>
    rw [List.foldl_cons]
    refine ih _ (fun x hx => htrim x (List.mem_cons_of_mem s hx)) ?_
    unfold missingStep
    by_cases h₁ : hasNonTech (jsToLower s) = true
    · rw [if_pos h₁]; exact hacc
    · rw [if_neg h₁]
      by_cases h₂ : (!jsIncludes jdL (jsToLower s)) = true
      · rw [if_pos h₂]; exact hacc
      · rw [if_neg h₂]
        by_cases h₃ : jsIncludes rl (jsToLower s) = true
        · rw [if_pos h₃]; exact hacc
        · rw [if_neg h₃]
          intro y hy
          rcases List.mem_append.1 hy with hy | hy
          · exact hacc y hy
          · rw [List.mem_singleton.1 hy]
            exact ⟨by simpa using h₃, htrim s (List.mem_cons_self s ss)⟩

theorem correctSkills_disjoint {jdL rl : String} {ms miss : List String}
    (htrim : ∀ s ∈ miss, jsTrim s = s) :
    ∀ a ∈ (correctSkills jdL rl ms miss).1, ∀ b ∈ (correctSkills jdL rl ms miss).2,
      jsToLower a ≠ jsToLower b := by
  intro a ha b hb heq
  unfold correctSkills at ha hb
  dsimp only at ha hb
  have hina : jsIncludes rl (jsToLower a) = true :=
    missingFold_matched_inv miss _ (fun x hx => matchedPass_includes hx) a ha
  obtain ⟨hb2, _⟩ := List.mem_filter.1 hb
  obtain ⟨y, hy, hyb⟩ := List.mem_map.1 hb2
  obtain ⟨hyinc, hytrim⟩ :=
    missingFold_kept_inv miss _ htrim (fun y hy => absurd hy (List.not_mem_nil y)) y hy
  have hby : b = y := by rw [← hyb, hytrim]
  rw [heq, hby] at hina
  rw [hyinc] at hina
  cases hina

theorem asArr_eq_some {o : Option JVal} {xs : List JVal} :
    asArr o = some xs ↔ o = some (.arr xs) := by
  cases o with
  | none => simp [asArr]
  | some v => cases v <;> simp [asArr]

theorem mem_asStrList {vs : List JVal} {ss : List String}
    (h : asStrList vs = some ss) : ∀ s ∈ ss, JVal.str s ∈ vs := by
  induction vs generalizing ss with
  | nil =>
    unfold asStrList at h
    cases h
    intro s hs
    cases hs
  | cons v vs ih =>
    cases v with
    | str s₀ =>
      unfold asStrList at h
      cases hv : asStrList vs with
      | none => rw [hv] at h; cases h
      | some ss' =>
        rw [hv] at h
        simp only [Option.map_some'] at h
        cases h
        intro s hs
        rcases List.mem_cons.1 hs with hs | hs
        · rw [hs]; exact List.mem_cons_self _ _
        · exact List.mem_cons_of_mem _ (ih hv s hs)
    | num q => cases h
    | bool b => cases h
    | null => cases h
    | arr xs => cases h
    | obj fs => cases h

theorem correctParsed_props {jd res : String} {fields : List (String × JVal)}
    {r : AnalysisResult}
    (h : correctParsed jd res fields = some r)
    (hnum : scoreIsNumB fields = true) (htrimB : missingTrimmedB fields = true) :
    scoreInRange r.score ∧ skillsDisjointCI r := by
  obtain ⟨q, hq⟩ : ∃ q, jlookup fields "score" = some (.num q) := by
    rcases hl : jlookup fields "score" with _ | v
    · unfold scoreIsNumB at hnum; rw [hl] at hnum; cases hnum
    · cases v with
      | num q => exact ⟨q, rfl⟩
      | str s => unfold scoreIsNumB at hnum; rw [hl] at hnum; cases hnum
      | bool b => unfold scoreIsNumB at hnum; rw [hl] at hnum; cases hnum
      | null => unfold scoreIsNumB at hnum; rw [hl] at hnum; cases hnum
      | arr xs => unfold scoreIsNumB at hnum; rw [hl] at hnum; cases hnum
      | obj fs => unfold scoreIsNumB at hnum; rw [hl] at hnum; cases hnum
  unfold correctParsed at h
  rw [hq] at h
  rcases hm : asArr (jlookup fields "matched_skills") with _ | mRaw <;> rw [hm] at h
  · cases h
  rcases hmi : asArr (jlookup fields "missing_skills") with _ | missRaw <;> rw [hmi] at h
  · cases h
  dsimp only at h
  rcases hms : asStrList mRaw with _ | ms <;> rw [hms] at h
  · cases h
  rcases hmiss : asStrList missRaw with _ | miss <;> rw [hmiss] at h
  · cases h
  dsimp only at h
  have hr := (Option.some.inj h).symm
  have htrim : ∀ s ∈ miss, jsTrim s = s := by
    intro s hs
    unfold missingTrimmedB at htrimB
    rw [asArr_eq_some.1 hmi] at htrimB
    have hv := List.all_eq_true.1 htrimB (JVal.str s) (mem_asStrList hmiss s hs)
    simpa using hv
  constructor
  · rw [hr]
    exact jsClampScore_num q
  · intro a ha b hb
    rw [hr] at ha hb
    exact correctSkills_disjoint htrim a ha b hb

theorem afterParse_some_correct {jd res : String} {fields : List (String × JVal)}
    {r : AnalysisResult} (h : afterParse jd res fields = some r) :
    correctParsed jd res fields = some r := by
  unfold afterParse at h
  rcases hrv : jlookup fields "reply" with _ | rv <;> rw [hrv] at h
  · exact h
  · dsimp only at h
    by_cases ht : jvTruthy rv = true
    · rw [if_pos ht] at h
      cases rv with
      | str s =>
        dsimp only at h
        by_cases hi : jsIncludes s "(error)" = true
        · rw [if_pos hi] at h; cases h
        · rw [if_neg hi] at h; exact h
      | num q => cases h
      | bool b => cases h
      | null => cases h
      | arr xs => cases h
      | obj fs => cases h
    · rw [if_neg ht] at h
      exact h

/-- C1 (amended): the returned object always has a score in [0, 100]
and case-insensitively disjoint skill lists on the fallback and
error-recovery paths, and on the model path whenever the extracted
object carries a numeric `score` and whitespace-trimmed
`missing_skills` entries.  (A non-numeric score survives coercion as
NaN, and an untrimmed missing entry can duplicate a matched skill
after trimming — see the counterexample.) -/
theorem c1_analysis_invariants (jdText resumeText : String) (mo : ModelOutcome)
    (hok : ∀ t fields, mo = .success t → extractParsedObj t = some fields →
      scoreIsNumB fields = true ∧ missingTrimmedB fields = true) :
    scoreInRange (analyzeJDResume jdText resumeText mo).score ∧
    skillsDisjointCI (analyzeJDResume jdText resumeText mo) := by
  have hfb : scoreInRange (fallbackAnalysis jdText resumeText).score ∧
      skillsDisjointCI (fallbackAnalysis jdText resumeText) :=
    ⟨fallback_scoreInRange jdText resumeText, fallback_disjoint jdText resumeText⟩
  cases mo with
  | initFailure => exact hfb
  | callFailure => exact hfb
  | success t =>
    show scoreInRange (afterModel jdText resumeText t).score ∧
      skillsDisjointCI (afterModel jdText resumeText t)
    unfold afterModel
    by_cases he : (jsIncludes t "(error)" || jsIncludes t "error") = true
    · rw [if_pos he]; exact hfb
    · rw [if_neg he]
      by_cases hl : t.data.length > 0
      · rw [if_pos hl]
        cases hf : extractParsedObj t with
        | none => exact hfb
        | some fields =>
          dsimp only
          obtain ⟨hnum, htrim⟩ := hok t fields rfl hf
          cases hap : afterParse jdText resumeText fields with
          | none => exact hfb
          | some r => exact correctParsed_props (afterParse_some_correct hap) hnum htrim
      · rw [if_neg hl]; exact hfb

/-- C1 (counterexample): with model output
`{"score": "high", "matched_skills": ["docker"], "missing_skills": [" docker"]}`
on job text `" docker docker"` and resume `"docker"`, the returned
score is NaN (outside [0, 100]) and `"docker"` ends up in both skill
lists: the untrimmed missing entry `" docker"` passes the
absent-from-resume check but equals the matched entry after
trimming. -/
theorem c1_counterexample :
    ¬ scoreInRange (analyzeJDResume " docker docker" "docker"
      (.success "\x7b\"score\": \"high\", \"matched_skills\": [\"docker\"], \"missing_skills\": [\" docker\"]\x7d")).score ∧
    ¬ skillsDisjointCI (analyzeJDResume " docker docker" "docker"
      (.success "\x7b\"score\": \"high\", \"matched_skills\": [\"docker\"], \"missing_skills\": [\" docker\"]\x7d")) :=
  ⟨by decide, by decide⟩

/-- Witness for C1 (amended) on a well-formed model output whose
out-of-range numeric score gets clamped. -/
theorem c1_witness :
    scoreInRange (analyzeJDResume "python docker" "python"
      (.success "\x7b\"score\": 150, \"matched_skills\": [\"python\"], \"missing_skills\": [\"docker\"]\x7d")).score ∧
    skillsDisjointCI (analyzeJDResume "python docker" "python"
      (.success "\x7b\"score\": 150, \"matched_skills\": [\"python\"], \"missing_skills\": [\"docker\"]\x7d")) :=
  c1_analysis_invariants "python docker" "python" _ (by
    intro t fields ht hf
    injection ht with ht'
    subst ht'
    have hall : (match extractParsedObj
        "\x7b\"score\": 150, \"matched_skills\": [\"python\"], \"missing_skills\": [\"docker\"]\x7d" with
      | some ff => scoreIsNumB ff && missingTrimmedB ff
      | none => true) = true := by decide
    rw [hf] at hall
    simp only [Bool.and_eq_true] at hall
    exact hall)

/-! ## Claim C5: cleanup identity on already-clean text -/

theorem asString_data (s : String) : s.data.asString = s := rfl

theorem chContains_cons {c : Char} {cs pat : List Char} :
    chContains (c :: cs) pat = (chPrefix pat (c :: cs) || chContains cs pat) := by
  cases hp : chPrefix pat (c :: cs) with
  | true => simp [chContains, chFind, hp]
  | false => cases hf : chFind pat cs <;> simp [chContains, chFind, hp, hf]

theorem chContains_cons_false {c : Char} {cs pat : List Char}
    (h : chContains (c :: cs) pat = false) :
    chPrefix pat (c :: cs) = false ∧ chContains cs pat = false := by
  rw [chContains_cons] at h
  exact ⟨(Bool.or_eq_false_iff.1 h).1, (Bool.or_eq_false_iff.1 h).2⟩

theorem chContains_of_chPrefix {cs pat : List Char} (h : chPrefix pat cs = true) :
    chContains cs pat = true :=
  chContains_iff.2 (chPrefix_iff.1 h).isInfix

theorem stripFencePairsF_id (fuel : Nat) (cs : List Char)
    (h : chContains cs fenceMarker = false) : stripFencePairsF fuel cs = cs := by
  induction fuel generalizing cs with
  | zero => rfl
  | succ fuel ih =>
    cases cs with
    | nil => rfl
    | cons c rest =>
      obtain ⟨hp, htl⟩ := chContains_cons_false h
      unfold stripFencePairsF
      rw [hp]
      rw [if_neg (by simp)]
      rw [ih rest htl]

theorem stripOpenFenceLinesF_id (fuel : Nat) (st : FenceScan) (cs : List Char)
    (h : chContains cs fenceMarker = false) (hst : st ≠ .inTag) :
    stripOpenFenceLinesF fuel st cs = cs := by
  induction fuel generalizing st cs with
  | zero => rfl
  | succ fuel ih =>
    cases cs with
    | nil => cases st <;> rfl
    | cons c rest =>
      obtain ⟨hp, htl⟩ := chContains_cons_false h
      cases st with
      | inTag => exact absurd rfl hst
      | lineStart =>
        unfold stripOpenFenceLinesF
        rw [hp]
        rw [if_neg (by simp)]
        rw [ih _ rest htl (by split <;> exact fun hc => FenceScan.noConfusion hc)]
      | midLine =>
        unfold stripOpenFenceLinesF
        rw [ih _ rest htl (by split <;> exact fun hc => FenceScan.noConfusion hc)]

theorem stripCloseFenceLinesF_id (fuel : Nat) (cs : List Char)
    (h : chContains cs fenceMarker = false) : stripCloseFenceLinesF fuel cs = cs := by
  induction fuel generalizing cs with
  | zero => rfl
  | succ fuel ih =>
    cases cs with
    | nil => rfl
    | cons c rest =>
      obtain ⟨hp, htl⟩ := chContains_cons_false h
      have hp2 : chPrefix fenceMarker rest = false := by
        cases hpp : chPrefix fenceMarker rest with
        | false => rfl
        | true => rw [chContains_of_chPrefix hpp] at htl; cases htl
      unfold stripCloseFenceLinesF
      rw [hp, hp2]
      simp only [Bool.and_false, Bool.false_and, Bool.false_eq_true, if_false, Bool.and_true]
      rw [ih rest htl]

theorem jsonUnwrapCover_id {t : String}
    (h₅ : jsIncludes t "\"cover_letter\"" = false)
    (h₆ : jsIncludes t "\"text\"" = false) : jsonUnwrapCover t = some t := by
  unfold jsonUnwrapCover
  rw [h₅, h₆]
  rfl

theorem dearIdx_none {t : String}
    (h : chContains (t.data.map Char.toLower) (String.data "dear") = false) :
    dearIdx t = none := chFind_eq_none_iff.2 h

theorem dearSlicePass_id {t : String}
    (h : chContains (t.data.map Char.toLower) (String.data "dear") = false) :
    dearSlicePass t = t := by
  unfold dearSlicePass
  rw [dearIdx_none h]

theorem promptMarkerElse_id {t : String} (marker : String) (markerIdx : Nat)
    (h : chContains (t.data.map Char.toLower) (String.data "dear") = false) :
    promptMarkerElse marker t markerIdx = t := by
  unfold promptMarkerElse
  by_cases hd : (chPrefix ['-'] marker.data || jsIncludes marker ":") = true
  · rw [if_pos hd]
    have htake : chContains ((t.data.take markerIdx).map Char.toLower)
        (String.data "dear") = false := by
      apply chContains_false_of_infix ?_ h
      rw [List.map_take]
      exact (List.take_prefix markerIdx (t.data.map Char.toLower)).isInfix
    rw [htake]
    rw [if_neg (by simp)]
  · rw [if_neg hd]

theorem promptMarkerPass1_id {t : String} (marker : String)
    (h : chContains (t.data.map Char.toLower) (String.data "dear") = false) :
    promptMarkerPass1 marker t = t := by
  unfold promptMarkerPass1
  cases hm : chFind (marker.data.map Char.toLower) (t.data.map Char.toLower) with
  | none => rfl
  | some markerIdx =>
    dsimp only
    have hdrop : chFind (String.data "dear") ((t.data.map Char.toLower).drop markerIdx) = none := by
      rw [chFind_eq_none_iff]
      exact chContains_false_of_infix (List.drop_suffix markerIdx _).isInfix h
    rw [hdrop]
    exact promptMarkerElse_id marker markerIdx h

theorem promptMarkersPass_id {t : String}
    (h : chContains (t.data.map Char.toLower) (String.data "dear") = false) :
    promptMarkersPass t = t := by
  unfold promptMarkersPass
  have : ∀ ms : List String, ms.foldl (fun acc m => promptMarkerPass1 m acc) t = t := by
    intro ms
    induction ms with
    | nil => rfl
    | cons m ms ih =>
      rw [List.foldl_cons, promptMarkerPass1_id m h, ih]
  exact this promptMarkers

theorem contentMarkersPass_id {t : String}
    (h : chContains (t.data.map Char.toLower) (String.data "dear") = false) :
    contentMarkersPass t = t := by
  unfold contentMarkersPass
  rw [dearIdx_none h]

theorem resumeSectionsPass_id {t : String}
    (h : chContains (t.data.map Char.toLower) (String.data "dear") = false) :
    resumeSectionsPass t = t := by
  unfold resumeSectionsPass
  rw [dearIdx_none h]

theorem chPrefixCI_contains {pat cs : List Char} (h : chPrefixCI pat cs = true) :
    chContains (cs.map Char.toLower) pat = true := by
  apply chContains_iff.2
  unfold chPrefixCI at h
  have hpre := chPrefix_iff.1 h
  rw [List.map_take] at hpre
  exact (hpre.trans (List.take_prefix pat.length (cs.map Char.toLower))).isInfix

theorem matchGreetingAny_none {cs : List Char}
    (h : chContains (cs.map Char.toLower) (String.data "dear") = false) :
    matchGreetingAny cs = none := by
  unfold matchGreetingAny
  cases hp : chPrefixCI (String.data "dear") cs with
  | false => rfl
  | true => rw [chPrefixCI_contains hp] at h; cases h

theorem matchDearHiring_none {cs : List Char}
    (h : chContains (cs.map Char.toLower) (String.data "dear") = false) :
    matchDearHiring cs = none := by
  unfold matchDearHiring
  cases hp : chPrefixCI (String.data "dear") cs with
  | false => rfl
  | true => rw [chPrefixCI_contains hp] at h; cases h

theorem matchGreetingNoNl_none {cs : List Char}
    (h : chContains (cs.map Char.toLower) (String.data "dear") = false) :
    matchGreetingNoNl cs = none := by
  unfold matchGreetingNoNl
  cases hp : chPrefixCI (String.data "dear") cs with
  | false => rfl
  | true => rw [chPrefixCI_contains hp] at h; cases h

theorem loopStrip_id {m : List Char → Option Nat} {cs : List Char}
    (h : m cs = none) : loopStrip m cs = cs := by
  unfold loopStrip loopStripF
  rw [h]

theorem greetingLoopPass_id {t : String}
    (h : chContains (t.data.map Char.toLower) (String.data "dear") = false) :
    greetingLoopPass t = t := by
  unfold greetingLoopPass
  rw [loopStrip_id (matchGreetingAny_none h), loopStrip_id (matchDearHiring_none h),
    loopStrip_id (matchGreetingNoNl_none h)]
  exact asString_data t

theorem removeEndMatch_id {p : List Char → Bool} {cs : List Char}
    (h : findSuffixIdx p cs = none) : removeEndMatch p cs = cs := by
  unfold removeEndMatch
  rw [h]

theorem closingsPass_id {t : String}
    (h₈ : findSuffixIdx closingMatch1 t.data = none)
    (h₉ : findSuffixIdx closingMatch2 t.data = none)
    (h₁₀ : findSuffixIdx closingMatch3 t.data = none)
    (h₁₁ : findSuffixIdx closingMatch4 t.data = none) :
    closingsPass t = t := by
  unfold closingsPass
  rw [removeEndMatch_id h₈, removeEndMatch_id h₉, removeEndMatch_id h₁₀, removeEndMatch_id h₁₁]
  exact asString_data t

theorem nameAtEndPass_id {t : String}
    (h : findSuffixIdx nameAtEndMatch t.data = none) : nameAtEndPass t = t := by
  unfold nameAtEndPass
  rw [removeEndMatch_id h]
  exact asString_data t

theorem dearPositionsAux_nil {cs : List Char} (i : Nat)
    (h : chContains cs (String.data "dear") = false) : dearPositionsAux i cs = [] := by
  induction cs generalizing i with
  | nil => rfl
  | cons c rest ih =>
    obtain ⟨hp, htl⟩ := chContains_cons_false h
    unfold dearPositionsAux
    rw [hp]
    rw [if_neg (by simp)]
    exact ih (i + 1) htl

theorem dupDearPass_id {t : String}
    (h : chContains (t.data.map Char.toLower) (String.data "dear") = false) :
    dupDearPass t = t := by
  unfold dupDearPass
  rw [dearPositionsAux_nil 0 h]

/-- C5 (amended): the cleanup stage is idempotent on already-clean
text: any text that is trimmed, at least 100 characters long, free of
edge quotes, code fences, the JSON-unwrap trigger fields, and any
occurrence of `dear` (case-insensitively), and that matches none of
the closing-signature or trailing-name patterns, is returned
unchanged — so re-applying the cleanup to such output does not alter
it.  On arbitrary raw inputs idempotency fails (see the
counterexample: cleaning the empty response yields the template,
whose re-cleaning strips salutation and greeting). -/
theorem c5_cleanup_identity_on_clean (t : String)
    (h₁ : jsTrim t = t)
    (h₂ : t.data.dropWhile isQuoteC = t.data)
    (h₃ : t.data.reverse.dropWhile isQuoteC = t.data.reverse)
    (h₄ : chContains t.data fenceMarker = false)
    (h₅ : jsIncludes t "\"cover_letter\"" = false)
    (h₆ : jsIncludes t "\"text\"" = false)
    (h₇ : chContains (t.data.map Char.toLower) (String.data "dear") = false)
    (h₈ : findSuffixIdx closingMatch1 t.data = none)
    (h₉ : findSuffixIdx closingMatch2 t.data = none)
    (h₁₀ : findSuffixIdx closingMatch3 t.data = none)
    (h₁₁ : findSuffixIdx closingMatch4 t.data = none)
    (h₁₂ : findSuffixIdx nameAtEndMatch t.data = none)
    (h₁₃ : 100 ≤ t.data.length) :
    generateCoverLetter t = some t := by
  have equotes : stripEdgeQuotes t = t := by
    unfold stripEdgeQuotes
    rw [h₂, h₃, List.reverse_reverse]
    exact asString_data t
  have efences : (stripCloseFenceLines (stripOpenFenceLines .lineStart
      (stripFencePairs t.data))).asString = t := by
    unfold stripFencePairs stripOpenFenceLines stripCloseFenceLines
    rw [stripFencePairsF_id _ _ h₄,
      stripOpenFenceLinesF_id _ _ _ h₄ (fun hc => FenceScan.noConfusion hc),
      stripCloseFenceLinesF_id _ _ h₄]
    exact asString_data t
  have hclean : coverLetterCleanup t = some t := by
    show (jsonUnwrapCover (stripCloseFenceLines (stripOpenFenceLines .lineStart
        (stripFencePairs (stripEdgeQuotes (jsTrim t)).data))).asString).map
      (fun c₃ => dupDearPass (nameAtEndPass (closingsPass (greetingLoopPass
        (resumeSectionsPass (contentMarkersPass (promptMarkersPass
          (dearSlicePass c₃)))))))) = some t
    rw [h₁, equotes, efences, jsonUnwrapCover_id h₅ h₆, Option.map_some']
    rw [dearSlicePass_id h₇, promptMarkersPass_id h₇, contentMarkersPass_id h₇,
      resumeSectionsPass_id h₇, greetingLoopPass_id h₇,
      closingsPass_id h₈ h₉ h₁₀ h₁₁, nameAtEndPass_id h₁₂, dupDearPass_id h₇]
  unfold generateCoverLetter coverLetterChecked
  rw [hclean, Option.map_some', if_neg (not_lt.2 h₁₃), Option.map_some', h₁]

/-- C5 (counterexample): the cleanup stage is not idempotent on raw
model output: the empty response cleans to the generic template, but
cleaning that template again strips its salutation, changing it. -/
theorem c5_counterexample :
    (generateCoverLetter "").bind generateCoverLetter ≠ generateCoverLetter "" := by
  decide

/-- Witness for C5 (amended): the template body (the template without
its salutation line) is already clean and passes through unchanged. -/
theorem c5_amended_witness : generateCoverLetter cleanBody = some cleanBody :=
  c5_cleanup_identity_on_clean cleanBody (by decide) (by decide) (by decide) (by decide)
    (by decide) (by decide) (by decide) (by decide) (by decide) (by decide) (by decide)
    (by decide) (by decide)
